import Mathlib

/-!
Shallow embedding of the `reading_assistant.parsing` ingestion pipeline
(`models.py`, `repository.py`, `worker.py`) and proofs of the spec claims.

Modelling conventions:
* Python dataclasses become Lean structures with the same field names.
* Python `int` fields that only ever hold non-negative values (page numbers,
  checkpoints, reading order, levels) become `Nat`; `float` fields carry no
  arithmetic in the modelled code, so they become `Rat` (exact carried values);
  `datetime` default-factory timestamps become `Nat` ticks (a pure model has
  no clock, so worker-constructed records use tick `0`).
* A Python `dict` keyed by record id becomes an association list with
  insert-or-replace-in-place semantics (`storeSet`), which is exactly the
  mutation order/positioning behaviour of a CPython dict.
* `deepcopy` on read/write is the identity in a pure value model.
* Fallible collaborators (engine parse, artifact writes, indexing) are
  environment functions returning `Except String`; an uncaught Python
  exception is the `Except.error` branch threaded to the caller together
  with the repository state at raise time.
-/

namespace ReadingAssistant

/-- `models.BookStatus`. -/
inductive BookStatus where
  | uploaded | parsing | paused | parsed | failed | needs_reparse
deriving DecidableEq, Repr

/-- `models.ParseJobState`. -/
inductive ParseJobState where
  | queued | running | paused | completed | failed
deriving DecidableEq, Repr

/-- `models.ParseJobPhase`. -/
inductive ParseJobPhase where
  | precheck | docling_parse | db_ingestion | indexing
deriving DecidableEq, Repr

/-- `models.BBox`. -/
structure BBox where
  x : Rat
  y : Rat
  w : Rat
  h : Rat
deriving DecidableEq, Repr

/-- `models.ParsedPage`. -/
structure ParsedPage where
  page_number : Nat
  width : Rat
  height : Rat
deriving DecidableEq, Repr

/-- `models.ParsedSection`. -/
structure ParsedSection where
  id : String
  parent_id : Option String
  level : Nat
  title_text : String
  start_page_number : Nat
  end_page_number : Nat
  order_index : Nat
deriving DecidableEq, Repr

/-- `models.ParsedBlock` (the unread free-form `metadata` dict is omitted). -/
structure ParsedBlock where
  id : String
  page_number : Nat
  block_type : String
  text : String
  bbox : BBox
  reading_order : Nat
  section_path : List String
  markup : Option String
  asset_id : Option String
  source_id : Option String
deriving DecidableEq, Repr

/-- `models.ParsedAsset` (the unread free-form `metadata` dict is omitted);
`image_bytes` is a byte list so that Python truthiness (`None` and `b""` are
falsy) can be modelled. -/
structure ParsedAsset where
  id : String
  page_number : Nat
  asset_type : String
  bbox : BBox
  image_bytes : Option (List Nat)
  image_path : Option String
deriving DecidableEq, Repr

/-- `models.ParsedBook` (the unread free-form `metadata` dict is omitted). -/
structure ParsedBook where
  pages : List ParsedPage
  sections : List ParsedSection
  blocks : List ParsedBlock
  assets : List ParsedAsset
  engine_version : String
deriving DecidableEq, Repr

/-- `models.BookRecord`. -/
structure BookRecord where
  id : String
  user_id : String
  file_md5 : String
  title : String
  author : Option String
  source : String
  original_file_path : String
  language : String
  parse_version : String
  status : BookStatus
  page_count : Option Nat
  created_at : Nat
  updated_at : Nat
deriving DecidableEq, Repr

/-- `models.ParseJobRecord` (`config_json` dict modelled as string pairs). -/
structure ParseJobRecord where
  id : String
  book_id : String
  state : ParseJobState
  phase : ParseJobPhase
  current_page : Nat
  total_pages : Option Nat
  error_message : Option String
  started_at : Option Nat
  updated_at : Nat
  config_json : List (String × String)
deriving DecidableEq, Repr

/-- `models.PageRecord`. -/
structure PageRecord where
  id : String
  book_id : String
  page_number : Nat
  width : Rat
  height : Rat
  render_image_path : Option String
  thumbnail_image_path : Option String
  parse_status : String
  created_at : Nat
  updated_at : Nat
deriving DecidableEq, Repr

/-- `models.SectionRecord`. -/
structure SectionRecord where
  id : String
  book_id : String
  parent_section_id : Option String
  level : Nat
  title_text : String
  start_page_number : Nat
  end_page_number : Nat
  order_index : Nat
  created_at : Nat
  updated_at : Nat
deriving DecidableEq, Repr

/-- `models.BlockRecord`. -/
structure BlockRecord where
  id : String
  book_id : String
  page_id : String
  section_id : Option String
  block_type : String
  text : String
  markup : Option String
  bbox_x : Rat
  bbox_y : Rat
  bbox_w : Rat
  bbox_h : Rat
  reading_order : Nat
  asset_id : Option String
  source_id : Option String
  created_at : Nat
  updated_at : Nat
deriving DecidableEq, Repr

/-- `models.AssetRecord`. -/
structure AssetRecord where
  id : String
  book_id : String
  page_id : String
  asset_type : String
  file_path : String
  bbox_x : Rat
  bbox_y : Rat
  bbox_w : Rat
  bbox_h : Rat
  block_id : Option String
  created_at : Nat
  updated_at : Nat
deriving DecidableEq, Repr

/-! ### Stores: a Python `dict` keyed by id as an association list -/

/-- A Python `dict[str, α]`: entries in insertion order, keys unique for any
dict reachable through dict operations. -/
abbrev Store (α : Type) := List (String × α)

/-- `d[k] = v`: replace in place if the key is present, else append.
This is exactly CPython dict assignment (position of an existing key is
preserved; a new key goes to the end). SQLAlchemy `session.merge` on a
primary key behaves the same way on the row set. -/
def storeSet {α : Type} : Store α → String → α → Store α
  | [], k, v => [(k, v)]
  | kv :: rest, k, v => if kv.1 = k then (k, v) :: rest else kv :: storeSet rest k v

/-- `d.get(k)`. -/
def storeGet {α : Type} : Store α → String → Option α
  | [], _ => none
  | kv :: rest, k => if kv.1 = k then some kv.2 else storeGet rest k

/-- `d.values()` in insertion order. -/
def storeValues {α : Type} (s : Store α) : List α := s.map Prod.snd

/-- Keys are pairwise distinct (true of every store reachable through
dict/`merge` operations). -/
def StoreWf {α : Type} (s : Store α) : Prop := (s.map Prod.fst).Nodup

instance {α : Type} (s : Store α) : Decidable (StoreWf s) := by
  unfold StoreWf; infer_instance

/-- Number of entries stored under key `k`. -/
def countKey {α : Type} (s : Store α) (k : String) : Nat :=
  (s.filter (fun kv => kv.1 == k)).length

/-! ### Repository state

`InMemoryParsingRepository` holds six dicts keyed by record id; the
SQLAlchemy implementation holds six tables keyed by primary-key id, whose
row order (rowid order) evolves exactly like dict insertion order under
`session.merge`.  Both are therefore states of the same shape. -/

structure RepoState where
  books : Store BookRecord
  jobs : Store ParseJobRecord
  pages : Store PageRecord
  sections : Store SectionRecord
  blocks : Store BlockRecord
  assets : Store AssetRecord
deriving DecidableEq, Repr

def emptyRepo : RepoState := ⟨[], [], [], [], [], []⟩

/-! ### `InMemoryParsingRepository` -/

/-- `InMemoryParsingRepository.get_book` (`deepcopy` is the identity here). -/
def get_book (st : RepoState) (book_id : String) : Option BookRecord :=
  storeGet st.books book_id

/-- `InMemoryParsingRepository.save_book`. -/
def save_book (st : RepoState) (book : BookRecord) : RepoState :=
  { st with books := storeSet st.books book.id book }

/-- `InMemoryParsingRepository.update_book_status`: no-op when the book is
absent; sets `status`, and `page_count` only when provided. -/
def update_book_status (st : RepoState) (book_id : String) (status : BookStatus)
    (page_count : Option Nat) : RepoState :=
  match storeGet st.books book_id with
  | none => st
  | some book =>
      let book1 := { book with status := status }
      let book2 := match page_count with
        | some pc => { book1 with page_count := some pc }
        | none => book1
      { st with books := storeSet st.books book_id book2 }

/-- `InMemoryParsingRepository.get_job`. -/
def get_job (st : RepoState) (job_id : String) : Option ParseJobRecord :=
  storeGet st.jobs job_id

/-- `InMemoryParsingRepository.save_job`. -/
def save_job (st : RepoState) (job : ParseJobRecord) : RepoState :=
  { st with jobs := storeSet st.jobs job.id job }

/-- The five `if <field> is not None: job.<field> = <field>` updates shared
verbatim by `InMemoryParsingRepository.update_job_state_phase` and the
`values` dict of `SqlAlchemyParsingRepository.update_job_state_phase`. -/
def applyJobUpdate (j : ParseJobRecord) (state : Option ParseJobState)
    (phase : Option ParseJobPhase) (current_page : Option Nat)
    (total_pages : Option Nat) (error_message : Option String) : ParseJobRecord :=
  { j with
    state := state.getD j.state
    phase := phase.getD j.phase
    current_page := current_page.getD j.current_page
    total_pages := match total_pages with | some t => some t | none => j.total_pages
    error_message := match error_message with | some e => some e | none => j.error_message }

/-- `InMemoryParsingRepository.update_job_state_phase`: no-op when the job is
absent; otherwise a partial update of the five optional fields. -/
def update_job_state_phase (st : RepoState) (job_id : String)
    (state : Option ParseJobState) (phase : Option ParseJobPhase)
    (current_page : Option Nat) (total_pages : Option Nat)
    (error_message : Option String) : RepoState :=
  match storeGet st.jobs job_id with
  | none => st
  | some j =>
      let j2 := applyJobUpdate j state phase current_page total_pages error_message
      { st with jobs := storeSet st.jobs job_id j2 }

/-- `for r in rs: self.<table>[r.id] = clone(r)` — also the row effect of the
SQLAlchemy upserts, which `session.merge` each record by primary key. -/
def upsertAll {α : Type} (idOf : α → String) (s : Store α) (l : List α) : Store α :=
  l.foldl (fun acc r => storeSet acc (idOf r) r) s

/-- `InMemoryParsingRepository.upsert_pages`. -/
def upsert_pages (st : RepoState) (l : List PageRecord) : RepoState :=
  { st with pages := upsertAll (fun r => r.id) st.pages l }

/-- `InMemoryParsingRepository.upsert_sections`. -/
def upsert_sections (st : RepoState) (l : List SectionRecord) : RepoState :=
  { st with sections := upsertAll (fun r => r.id) st.sections l }

/-- `InMemoryParsingRepository.upsert_blocks`. -/
def upsert_blocks (st : RepoState) (l : List BlockRecord) : RepoState :=
  { st with blocks := upsertAll (fun r => r.id) st.blocks l }

/-- `InMemoryParsingRepository.upsert_assets`. -/
def upsert_assets (st : RepoState) (l : List AssetRecord) : RepoState :=
  { st with assets := upsertAll (fun r => r.id) st.assets l }

/-- `InMemoryParsingRepository.list_blocks_for_book`: the dict's values in
insertion order, filtered by `book_id` — no sorting of any kind. -/
def list_blocks_for_book (st : RepoState) (book_id : String) : List BlockRecord :=
  (storeValues st.blocks).filter (fun b => b.book_id == book_id)

/-! ### `SqlAlchemyParsingRepository`

Tables are modelled by the same stores (rows in rowid order; `merge` =
insert-or-replace by primary key, which preserves an existing row's
position). -/

/-- `UPDATE <table> SET ... WHERE id = k`: apply `f` to every row keyed `k`. -/
def sqlUpdateRows {α : Type} (s : Store α) (k : String) (f : α → α) : Store α :=
  s.map (fun kv => if kv.1 = k then (kv.1, f kv.2) else kv)

/-- `SqlAlchemyParsingRepository.update_book_status`. -/
def sql_update_book_status (st : RepoState) (book_id : String) (status : BookStatus)
    (page_count : Option Nat) : RepoState :=
  { st with books := sqlUpdateRows st.books book_id (fun b =>
      match page_count with
      | some pc => { b with status := status, page_count := some pc }
      | none => { b with status := status }) }

/-- `SqlAlchemyParsingRepository.update_job_state_phase`: collects the
provided fields into `values` and executes the UPDATE only `if values:`. -/
def sql_update_job_state_phase (st : RepoState) (job_id : String)
    (state : Option ParseJobState) (phase : Option ParseJobPhase)
    (current_page : Option Nat) (total_pages : Option Nat)
    (error_message : Option String) : RepoState :=
  if state.isNone ∧ phase.isNone ∧ current_page.isNone ∧ total_pages.isNone
      ∧ error_message.isNone then st
  else
    { st with jobs := sqlUpdateRows st.jobs job_id (fun j =>
        applyJobUpdate j state phase current_page total_pages error_message) }

/-- `SqlAlchemyParsingRepository.upsert_pages` (`session.merge` per record). -/
def sql_upsert_pages (st : RepoState) (l : List PageRecord) : RepoState :=
  { st with pages := upsertAll (fun r => r.id) st.pages l }

/-- `SqlAlchemyParsingRepository.upsert_sections`. -/
def sql_upsert_sections (st : RepoState) (l : List SectionRecord) : RepoState :=
  { st with sections := upsertAll (fun r => r.id) st.sections l }

/-- `SqlAlchemyParsingRepository.upsert_blocks`. -/
def sql_upsert_blocks (st : RepoState) (l : List BlockRecord) : RepoState :=
  { st with blocks := upsertAll (fun r => r.id) st.blocks l }

/-- `SqlAlchemyParsingRepository.upsert_assets`. -/
def sql_upsert_assets (st : RepoState) (l : List AssetRecord) : RepoState :=
  { st with assets := upsertAll (fun r => r.id) st.assets l }

/-- The field-by-field `BlockRecord(...)` reconstruction in
`SqlAlchemyParsingRepository.list_blocks_for_book` (`int(m.reading_order or 0)`
is the identity on a `Nat`-valued row). -/
def rebuildBlock (m : BlockRecord) : BlockRecord :=
  { id := m.id, book_id := m.book_id, page_id := m.page_id
    section_id := m.section_id, block_type := m.block_type, text := m.text
    markup := m.markup, bbox_x := m.bbox_x, bbox_y := m.bbox_y
    bbox_w := m.bbox_w, bbox_h := m.bbox_h, reading_order := m.reading_order
    asset_id := m.asset_id, source_id := m.source_id
    created_at := m.created_at, updated_at := m.updated_at }

/-- `SqlAlchemyParsingRepository.list_blocks_for_book`: a `SELECT ... WHERE
book_id = ?` with **no ORDER BY** — rows come back in rowid order. -/
def sql_list_blocks_for_book (st : RepoState) (book_id : String) : List BlockRecord :=
  ((storeValues st.blocks).filter (fun b => b.book_id == book_id)).map rebuildBlock

/-! ### `ParsingWorker` helpers -/

/-- Python truthiness of an optional string: `None` and `""` are falsy. -/
def strTruthy : Option String → Bool
  | none => false
  | some s => if s = "" then false else true

/-- Python truthiness of optional bytes: `None` and `b""` are falsy. -/
def bytesTruthy : Option (List Nat) → Bool
  | none => false
  | some bs => if bs.isEmpty then false else true

/-- Derived page id `f"{book_id}-p{page.page_number}"`. -/
def pageIdOf (book_id : String) (n : Nat) : String := book_id ++ "-p" ++ toString n

/-- Derived section id `f"{book_id}-sec-{section.id}"`. -/
def sectionIdOf (book_id sid : String) : String := book_id ++ "-sec-" ++ sid

/-- Derived block id `f"{book_id}-blk-{block.id}"`. -/
def blockIdOf (book_id bid : String) : String := book_id ++ "-blk-" ++ bid

/-- Derived asset id `f"{book_id}-asset-{asset.id}"`. -/
def assetIdOf (book_id aid : String) : String := book_id ++ "-asset-" ++ aid

/-- Python `sorted`'s insertion step for a `key=` sort, placing an element
after strictly smaller keys and before equal ones (stability). -/
def insertByKey {α : Type} (key : α → Nat) (x : α) : List α → List α
  | [] => [x]
  | y :: ys => if key y < key x then y :: insertByKey key x ys else x :: y :: ys

/-- Python `sorted(l, key=key)`: a stable sort by a `Nat` key, extensionally
equal to CPython's stable sort. -/
def sortByKey {α : Type} (key : α → Nat) : List α → List α
  | [] => []
  | x :: xs => insertByKey key x (sortByKey key xs)

/-- The `PageRecord(...)` built for one parsed page (worker lines 129–138);
worker-built records carry tick-`0` timestamps. -/
def pageRecordOf (book_id : String) (page : ParsedPage) : PageRecord :=
  { id := pageIdOf book_id page.page_number, book_id := book_id
    page_number := page.page_number, width := page.width, height := page.height
    render_image_path := none, thumbnail_image_path := none
    parse_status := "parsed", created_at := 0, updated_at := 0 }

/-- `ParsingWorker._map_sections`, one section at a time: register the derived
id in `section_id_map` (before resolving the parent, as in the source), then
build the record.  Worker-built records carry tick-`0` timestamps. -/
def map_sections_go (book_id : String) :
    List ParsedSection → Store String → List SectionRecord × Store String
  | [], m => ([], m)
  | ps :: rest, m =>
      let record_id := sectionIdOf book_id ps.id
      let m1 := storeSet m ps.id record_id
      let parent_id : Option String :=
        match ps.parent_id with
        | some p => if p = "" then none else some ((storeGet m1 p).getD (sectionIdOf book_id p))
        | none => none
      let rec1 : SectionRecord :=
        { id := record_id, book_id := book_id, parent_section_id := parent_id
          level := ps.level, title_text := ps.title_text
          start_page_number := ps.start_page_number
          end_page_number := ps.end_page_number, order_index := ps.order_index
          created_at := 0, updated_at := 0 }
      let out := map_sections_go book_id rest m1
      (rec1 :: out.1, out.2)

/-- `ParsingWorker._map_sections` starting from an empty `section_id_map`. -/
def map_sections (book_id : String) (sections_sorted : List ParsedSection) :
    List SectionRecord × Store String :=
  map_sections_go book_id sections_sorted []

/-- `ParsingWorker._resolve_section`: first entry of the block's
`section_path` present in `section_id_map`, else `None`. -/
def resolve_section_go (smap : Store String) : List String → Option String
  | [] => none
  | r :: rest =>
      match storeGet smap r with
      | some v => some v
      | none => resolve_section_go smap rest

/-- `ParsingWorker._map_blocks`, one block at a time, threading the per-page
`asset_owner_map`. -/
def map_blocks_go (book_id page_id : String) (smap : Store String) :
    List ParsedBlock → Store String → List BlockRecord × Store String
  | [], owner => ([], owner)
  | b :: rest, owner =>
      let block_id := blockIdOf book_id b.id
      let section_id := resolve_section_go smap b.section_path
      let asset_ref : Option String :=
        match b.asset_id with
        | some a => if a = "" then none else some (assetIdOf book_id a)
        | none => none
      let owner1 := match asset_ref with
        | some r => storeSet owner r block_id
        | none => owner
      let rec1 : BlockRecord :=
        { id := block_id, book_id := book_id, page_id := page_id
          section_id := section_id, block_type := b.block_type, text := b.text
          markup := b.markup, bbox_x := b.bbox.x, bbox_y := b.bbox.y
          bbox_w := b.bbox.w, bbox_h := b.bbox.h
          reading_order := b.reading_order, asset_id := asset_ref
          source_id := b.source_id, created_at := 0, updated_at := 0 }
      let out := map_blocks_go book_id page_id smap rest owner1
      (rec1 :: out.1, out.2)

/-- `ParsingWorker._map_blocks` starting from an empty `asset_owner_map`. -/
def map_blocks (book_id page_id : String) (blocks : List ParsedBlock)
    (smap : Store String) : List BlockRecord × Store String :=
  map_blocks_go book_id page_id smap blocks []

/-! ### The worker's environment (storage / engine / indexer collaborators)

`LocalBookStorage`, the parsing engine and the indexer are external,
side-effecting collaborators; each fallible call is a function returning
`Except String` (the `error` branch is an uncaught Python exception carrying
`str(exc)`). -/

structure Env where
  /-- `LocalBookStorage.find_original_pdf`. -/
  find_original_pdf : String → Option String
  /-- `Path.exists` for `_locate_pdf`'s candidate path. -/
  path_exists : String → Bool
  /-- `ParsingEngine.count_pages` (may be unknown). -/
  count_pages : String → Option Nat
  /-- `ParsingEngine.parse`. -/
  parse : String → Except String ParsedBook
  /-- `LocalBookStorage.write_docling_output` for a book id. -/
  write_docling_output : String → Except String Unit
  /-- `LocalBookStorage.write_asset_image book_id asset_id data -> path`. -/
  write_asset_image : String → String → List Nat → Except String String
  /-- `Indexer.index_book`. -/
  index_book : String → List BlockRecord → Except String Unit

/-- `ParsingWorker._map_assets`, one asset at a time (fallible because of the
artifact-store write). -/
def map_assets_go (env : Env) (book_id page_id : String) (owner : Store String) :
    List ParsedAsset → Except String (List AssetRecord)
  | [] => .ok []
  | a :: rest =>
      let asset_id := assetIdOf book_id a.id
      let fpE : Except String String :=
        if bytesTruthy a.image_bytes then
          env.write_asset_image book_id asset_id (a.image_bytes.getD [])
        else if strTruthy a.image_path then .ok (a.image_path.getD "")
        else .ok ""
      match fpE with
      | .error e => .error e
      | .ok file_path =>
          let rec1 : AssetRecord :=
            { id := asset_id, book_id := book_id, page_id := page_id
              asset_type := a.asset_type, file_path := file_path
              bbox_x := a.bbox.x, bbox_y := a.bbox.y
              bbox_w := a.bbox.w, bbox_h := a.bbox.h
              block_id := storeGet owner asset_id
              created_at := 0, updated_at := 0 }
          match map_assets_go env book_id page_id owner rest with
          | .error e => .error e
          | .ok recs => .ok (rec1 :: recs)

/-! ### Observable repository events of one ingestion run -/

inductive Event where
  | upsertSectionsEv (recs : List SectionRecord)
  | upsertPagesEv (recs : List PageRecord)
  | upsertBlocksEv (recs : List BlockRecord)
  | upsertAssetsEv (recs : List AssetRecord)
  | setCheckpointEv (n : Nat)
  | pauseCheckEv (answer : Bool)
deriving DecidableEq, Repr

/-- The loop state of `_ingest_parsed_book`: repository state, emitted
events, the three in-memory batches, `last_page_ingested`, and how many
pause checks have happened (the argument fed to the pause oracle). -/
structure IngestSt where
  st : RepoState
  trace : List Event
  batch_pages : List PageRecord
  batch_blocks : List BlockRecord
  batch_assets : List AssetRecord
  last_page_ingested : Nat
  checks : Nat
deriving Repr

inductive IngestResult where
  | done (st : RepoState) (trace : List Event)
  | err (st : RepoState) (trace : List Event) (msg : String)
deriving DecidableEq, Repr

def IngestResult.state : IngestResult → RepoState
  | .done st _ => st
  | .err st _ _ => st

def IngestResult.events : IngestResult → List Event
  | .done _ tr => tr
  | .err _ tr _ => tr

def IngestResult.isErr : IngestResult → Bool
  | .done _ _ => false
  | .err _ _ _ => true

/-- One flush of `_ingest_parsed_book`: upsert pages, then blocks, then
assets, write the checkpoint, then poll `_should_pause`.  The pause oracle
`pause : Nat → Bool` abstracts the externally mutable job row that
`_should_pause` reads (`job.state == PAUSED` at the time of the k-th poll). -/
def flushBatch (job_id : String) (pause : Nat → Bool) (s : IngestSt) (pn : Nat) :
    IngestSt × Bool :=
  let st1 := upsert_pages s.st s.batch_pages
  let st2 := upsert_blocks st1 s.batch_blocks
  let st3 := upsert_assets st2 s.batch_assets
  let st4 := update_job_state_phase st3 job_id none none (some pn) none none
  let ans := pause s.checks
  let tr := s.trace ++ [Event.upsertPagesEv s.batch_pages,
    Event.upsertBlocksEv s.batch_blocks, Event.upsertAssetsEv s.batch_assets,
    Event.setCheckpointEv pn, Event.pauseCheckEv ans]
  (⟨st4, tr, [], [], [], pn, s.checks + 1⟩, ans)

/-- The page loop of `_ingest_parsed_book` (lines 124–173): skip pages at or
below the checkpoint, accumulate the three batches, flush at `batch_size`,
honour a pause only right after a flush, and flush the final partial batch.
(`page_id_map` in the source is written but never read, hence not carried.) -/
def ingest_loop (env : Env) (batch_size : Nat) (pause : Nat → Bool)
    (job_id book_id : String) (pb : ParsedBook) (resume : Nat)
    (smap : Store String) : List ParsedPage → IngestSt → IngestResult
  | [], s =>
      if s.batch_pages.isEmpty then .done s.st s.trace
      else
        let pn := ((s.batch_pages.getLast?).map (fun p => p.page_number)).getD 0
        let out := flushBatch job_id pause s pn
        .done out.1.st out.1.trace
  | page :: rest, s =>
      if page.page_number ≤ resume then
        ingest_loop env batch_size pause job_id book_id pb resume smap rest s
      else
        let page_id := pageIdOf book_id page.page_number
        let page_record := pageRecordOf book_id page
        let batch_pages := s.batch_pages ++ [page_record]
        let related_blocks := pb.blocks.filter (fun b => b.page_number == page.page_number)
        let mb := map_blocks book_id page_id related_blocks smap
        let batch_blocks := s.batch_blocks ++ mb.1
        let related_assets := pb.assets.filter (fun a => a.page_number == page.page_number)
        match map_assets_go env book_id page_id mb.2 related_assets with
        | .error e => .err s.st s.trace e
        | .ok asset_records =>
            let batch_assets := s.batch_assets ++ asset_records
            let s1 : IngestSt :=
              { s with batch_pages := batch_pages, batch_blocks := batch_blocks
                       batch_assets := batch_assets }
            if batch_size ≤ batch_pages.length then
              let out := flushBatch job_id pause s1 page.page_number
              if out.2 then .done out.1.st out.1.trace
              else ingest_loop env batch_size pause job_id book_id pb resume smap rest out.1
            else ingest_loop env batch_size pause job_id book_id pb resume smap rest s1

/-- `ParsingWorker._ingest_parsed_book`: sort pages by page number and
sections by order index (both stably), upsert all sections once up front
(only when there are any), then run the batched page loop. -/
def ingest_parsed_book (env : Env) (batch_size : Nat) (pause : Nat → Bool)
    (st : RepoState) (job_id book_id : String) (pb : ParsedBook)
    (resume_from_page : Nat) : IngestResult :=
  let pages_sorted := sortByKey (fun p => p.page_number) pb.pages
  let sections_sorted := sortByKey (fun ps => ps.order_index) pb.sections
  let ms := map_sections book_id sections_sorted
  let stp : RepoState × List Event :=
    if ms.1.isEmpty then (st, [])
    else (upsert_sections st ms.1, [Event.upsertSectionsEv ms.1])
  ingest_loop env batch_size pause job_id book_id pb resume_from_page ms.2
    pages_sorted ⟨stp.1, stp.2, [], [], [], resume_from_page, 0⟩

/-! ### `ParsingWorker.run_job` -/

/-- `ParsingWorker._locate_pdf`: prefer the artifact-store copy, fall back to
the book's recorded original path, and raise `FileNotFoundError` when the
candidate does not exist. -/
def locate_pdf (env : Env) (book_original_path book_id : String) : Except String String :=
  let stored := env.find_original_pdf book_id
  let candidate := stored.getD book_original_path
  if env.path_exists candidate then .ok candidate
  else .error ("PDF not found at " ++ candidate)

/-- The `except` handler of `run_job`: mark the job FAILED with the error
message, then mark the book failed (both before re-raising). -/
def markFailed (st : RepoState) (job_id bid msg : String) : RepoState :=
  let st1 := update_job_state_phase st job_id (some ParseJobState.failed)
    none none none (some msg)
  update_book_status st1 bid BookStatus.failed none

instance {ε α : Type} [DecidableEq ε] [DecidableEq α] : DecidableEq (Except ε α)
  | Except.error a, Except.error b =>
      if h : a = b then .isTrue (h ▸ rfl)
      else .isFalse (fun hh => h (Except.error.inj hh))
  | Except.error _, Except.ok _ => .isFalse (fun hh => Except.noConfusion hh)
  | Except.ok _, Except.error _ => .isFalse (fun hh => Except.noConfusion hh)
  | Except.ok a, Except.ok b =>
      if h : a = b then .isTrue (h ▸ rfl)
      else .isFalse (fun hh => h (Except.ok.inj hh))

/-- Outcome of `run_job`: the repository state when the call returns or the
exception escapes, plus the normal/raised result the caller observes. -/
structure RunOut where
  st : RepoState
  result : Except String Unit
deriving DecidableEq, Repr

/-- The `try` block of `run_job` (everything after `_locate_pdf` succeeded),
with the `except` handler applied to any error raised inside it.
`write_docling_output`'s JSON round-trip of the parsed book is pure and does
not touch repository state. -/
def run_job_body (env : Env) (batch_size : Nat) (persist_engine_output : Bool)
    (pause : Nat → Bool) (st0 : RepoState) (job_id : String)
    (job : ParseJobRecord) (book : BookRecord) (pdf_path : String) : RunOut :=
  let st1 := update_job_state_phase st0 job_id (some ParseJobState.running)
    (some ParseJobPhase.precheck) none none none
  let st2 := update_book_status st1 book.id BookStatus.parsing none
  let page_count := env.count_pages pdf_path
  let st3 := update_book_status st2 book.id BookStatus.parsing page_count
  let st4 := update_job_state_phase st3 job_id none none none page_count none
  let st5 := update_job_state_phase st4 job_id none (some ParseJobPhase.docling_parse)
    none none none
  match env.parse pdf_path with
  | .error e => ⟨markFailed st5 job_id book.id e, .error e⟩
  | .ok parsed_book =>
    match (if persist_engine_output then env.write_docling_output book.id else .ok ()) with
    | .error e => ⟨markFailed st5 job_id book.id e, .error e⟩
    | .ok _ =>
      let st6 := update_job_state_phase st5 job_id none (some ParseJobPhase.db_ingestion)
        none none none
      match ingest_parsed_book env batch_size pause st6 job_id book.id parsed_book
          job.current_page with
      | .err stE _ e => ⟨markFailed stE job_id book.id e, .error e⟩
      | .done st7 _ =>
        let st8 := update_job_state_phase st7 job_id none (some ParseJobPhase.indexing)
          none none none
        let blocks := list_blocks_for_book st8 book.id
        match env.index_book book.id blocks with
        | .error e => ⟨markFailed st8 job_id book.id e, .error e⟩
        | .ok _ =>
          let st9 := update_job_state_phase st8 job_id (some ParseJobState.completed)
            none none none none
          ⟨update_book_status st9 book.id BookStatus.parsed none, .ok ()⟩

/-- `ParsingWorker.run_job`: the two existence checks and `_locate_pdf`
happen before the `try` block, so their errors propagate without any state
write. -/
def run_job (env : Env) (batch_size : Nat) (persist_engine_output : Bool)
    (pause : Nat → Bool) (st : RepoState) (job_id : String) : RunOut :=
  match get_job st job_id with
  | none => ⟨st, .error ("Parse job " ++ job_id ++ " not found")⟩
  | some job =>
    match get_book st job.book_id with
    | none => ⟨st, .error ("Book " ++ job.book_id ++ " not found for job " ++ job_id)⟩
    | some book =>
      match locate_pdf env book.original_file_path book.id with
      | .error e => ⟨st, .error e⟩
      | .ok pdf_path =>
          run_job_body env batch_size persist_engine_output pause st job_id job book pdf_path

/-! ### Chunked normal form of the ingestion loop

The page loop of `_ingest_parsed_book` flushes every time the page batch
reaches `batch_size` (every page when `batch_size = 0`, since
`len(batch) >= 0` is always true) plus one final partial flush.  The
following definitions re-express one loop iteration and one whole
batch-sized chunk; the theorem `ingest_loop_eq_chunkedIngest` below proves
the loop equal to the chunked executor. -/

/-- The per-page body of the loop: the page record, the mapped block records
of the page, and the mapped asset records (fallible via the artifact write). -/
def processPage (env : Env) (book_id : String) (pb : ParsedBook)
    (smap : Store String) (page : ParsedPage) :
    Except String (PageRecord × List BlockRecord × List AssetRecord) :=
  let page_id := pageIdOf book_id page.page_number
  let page_record := pageRecordOf book_id page
  let related_blocks := pb.blocks.filter (fun b => b.page_number == page.page_number)
  let mb := map_blocks book_id page_id related_blocks smap
  let related_assets := pb.assets.filter (fun a => a.page_number == page.page_number)
  match map_assets_go env book_id page_id mb.2 related_assets with
  | .error e => .error e
  | .ok asset_records => .ok (page_record, mb.1, asset_records)

/-- Process the pages of one chunk, concatenating their batched records;
the first failing artifact write aborts the chunk. -/
def processChunk (env : Env) (book_id : String) (pb : ParsedBook)
    (smap : Store String) :
    List ParsedPage → Except String (List PageRecord × List BlockRecord × List AssetRecord)
  | [] => .ok ([], [], [])
  | p :: rest =>
      match processPage env book_id pb smap p with
      | .error e => .error e
      | .ok out =>
          match processChunk env book_id pb smap rest with
          | .error e => .error e
          | .ok outs => .ok (out.1 :: outs.1, out.2.1 ++ outs.2.1, out.2.2 ++ outs.2.2)

/-- The state effect of one flush: upsert pages, then blocks, then assets,
then write the checkpoint. -/
def applyFlush (job_id : String) (st : RepoState) (prs : List PageRecord)
    (brs : List BlockRecord) (ars : List AssetRecord) (pn : Nat) : RepoState :=
  update_job_state_phase (upsert_assets (upsert_blocks (upsert_pages st prs) brs) ars)
    job_id none none (some pn) none none

/-- The events of one flush. -/
def flushEvents (prs : List PageRecord) (brs : List BlockRecord)
    (ars : List AssetRecord) (pn : Nat) (ans : Bool) : List Event :=
  [Event.upsertPagesEv prs, Event.upsertBlocksEv brs, Event.upsertAssetsEv ars,
   Event.setCheckpointEv pn, Event.pauseCheckEv ans]

/-- Effective chunk size of the loop: `batch_size`, except that
`batch_size = 0` flushes after every single page. -/
def chunkSize (batch_size : Nat) : Nat := max batch_size 1

/-- Last page number of a chunk (`0` for an empty chunk, never consulted). -/
def lastPageNumber (chunk : List ParsedPage) : Nat :=
  ((chunk.getLast?).map (fun p => p.page_number)).getD 0

/-- The chunked executor: process `chunkSize` pages, flush, poll pause, and
recurse on the remaining pages. -/
def chunkedIngest (env : Env) (batch_size : Nat) (pause : Nat → Bool)
    (job_id book_id : String) (pb : ParsedBook) (smap : Store String) :
    List ParsedPage → Nat → RepoState → List Event → IngestResult
  | [], _, st, tr => .done st tr
  | p :: rest, k, st, tr =>
      let todo := p :: rest
      let chunk := todo.take (chunkSize batch_size)
      match processChunk env book_id pb smap chunk with
      | .error e => .err st tr e
      | .ok out =>
          let pn := lastPageNumber chunk
          let st1 := applyFlush job_id st out.1 out.2.1 out.2.2 pn
          let ans := pause k
          let tr1 := tr ++ flushEvents out.1 out.2.1 out.2.2 pn ans
          if ans then .done st1 tr1
          else chunkedIngest env batch_size pause job_id book_id pb smap
            (todo.drop (chunkSize batch_size)) (k+1) st1 tr1
termination_by todo => todo.length
decreasing_by
  simp only [List.length_drop]
  have h1 : 1 ≤ chunkSize batch_size := Nat.le_max_right _ _
  simp only [List.length_cons]
  omega

/-- The loop state right after flushing the batches extended by one chunk's
records. -/
def flushedState (jid : String) (pause : Nat → Bool) (s : IngestSt)
    (out : List PageRecord × List BlockRecord × List AssetRecord) (pn : Nat) :
    IngestSt × Bool :=
  flushBatch jid pause
    { s with batch_pages := s.batch_pages ++ out.1
             batch_blocks := s.batch_blocks ++ out.2.1
             batch_assets := s.batch_assets ++ out.2.2 } pn

/-- The behaviour of the loop's trailing partial flush: nothing if the final
batch is empty, otherwise one flush at the batch's last page number and stop. -/
def finalFlushResult (jid : String) (pause : Nat → Bool) (s : IngestSt)
    (out : List PageRecord × List BlockRecord × List AssetRecord) : IngestResult :=
  if (s.batch_pages ++ out.1).isEmpty then .done s.st s.trace
  else
    IngestResult.done
      (flushedState jid pause s out
        ((((s.batch_pages ++ out.1).getLast?).map (fun p => p.page_number)).getD 0)).1.st
      (flushedState jid pause s out
        ((((s.batch_pages ++ out.1).getLast?).map (fun p => p.page_number)).getD 0)).1.trace

/-! ### Trace observers -/

/-- The checkpoint values written by a run, in order. -/
def checkpointsOf (tr : List Event) : List Nat :=
  tr.filterMap (fun e => match e with
    | Event.setCheckpointEv n => some n
    | _ => none)

/-- The last checkpoint written, or the default `d` when none was. -/
def lastCheckpointD (tr : List Event) (d : Nat) : Nat :=
  ((checkpointsOf tr).getLast?).getD d

/-- The page batches upserted by a run, in order. -/
def pageBatchesOf (tr : List Event) : List (List PageRecord) :=
  tr.filterMap (fun e => match e with
    | Event.upsertPagesEv recs => some recs
    | _ => none)

/-- The block batches upserted by a run, in order. -/
def blockBatchesOf (tr : List Event) : List (List BlockRecord) :=
  tr.filterMap (fun e => match e with
    | Event.upsertBlocksEv recs => some recs
    | _ => none)

/-- The asset batches upserted by a run, in order. -/
def assetBatchesOf (tr : List Event) : List (List AssetRecord) :=
  tr.filterMap (fun e => match e with
    | Event.upsertAssetsEv recs => some recs
    | _ => none)

def Event.isSectionsEv : Event → Bool
  | Event.upsertSectionsEv _ => true
  | _ => false

/-- Modelled from the spec: "the checkpoint advances in increments aligned to
B (except possibly the final partial batch)" — starting at `s0` with `m`
pages left, each flush advances the checkpoint by `min B m`. -/
def expectedCheckpoints (B : Nat) : Nat → Nat → List Nat
  | _, 0 => []
  | s0, m+1 =>
      let step := min (chunkSize B) (m+1)
      (s0 + step) :: expectedCheckpoints B (s0 + step) (m+1 - step)
termination_by _ m => m
decreasing_by
  have h1 : 1 ≤ chunkSize B := Nat.le_max_right _ _
  omega

/-- A trace made of whole flush groups, each in the order pages → blocks →
assets → checkpoint → pause poll, where each group satisfies `P`. -/
inductive Grouped (P : List PageRecord → List BlockRecord → List AssetRecord → Nat → Prop) :
    List Event → Prop where
  | nil : Grouped P []
  | grp (ps : List PageRecord) (bs : List BlockRecord) (as_ : List AssetRecord)
      (n : Nat) (ans : Bool) (rest : List Event) :
      P ps bs as_ n → Grouped P rest →
      Grouped P (Event.upsertPagesEv ps :: Event.upsertBlocksEv bs ::
        Event.upsertAssetsEv as_ :: Event.setCheckpointEv n ::
        Event.pauseCheckEv ans :: rest)

/-- The four content stores (everything except books/jobs bookkeeping):
the "record set" the resumability property compares. -/
def contentOf (st : RepoState) :
    Store PageRecord × Store SectionRecord × Store BlockRecord × Store AssetRecord :=
  (st.pages, st.sections, st.blocks, st.assets)

/-! ### Concrete fixtures used by witnesses and counterexamples -/

def bbF : BBox := ⟨0, 0, 1, 1⟩

/-- A three-page parsed book with two blocks per page (the spec §8 scenario). -/
def pbFix : ParsedBook :=
  { pages := [⟨1, 10, 20⟩, ⟨2, 10, 20⟩, ⟨3, 10, 20⟩]
    sections := [⟨"s1", none, 1, "Intro", 1, 3, 0⟩]
    blocks := [⟨"b1", 1, "paragraph", "t1", bbF, 0, ["s1"], none, none, none⟩,
               ⟨"b2", 1, "paragraph", "t2", bbF, 1, [], none, none, none⟩,
               ⟨"b3", 2, "paragraph", "t3", bbF, 0, [], none, none, none⟩,
               ⟨"b4", 2, "paragraph", "t4", bbF, 1, [], none, none, none⟩,
               ⟨"b5", 3, "paragraph", "t5", bbF, 0, [], none, none, none⟩,
               ⟨"b6", 3, "paragraph", "t6", bbF, 1, [], none, none, none⟩]
    assets := []
    engine_version := "v1" }

/-- A healthy environment for the fixture book. -/
def envFix : Env :=
  { find_original_pdf := fun _ => none
    path_exists := fun _ => true
    count_pages := fun _ => some 3
    parse := fun _ => .ok pbFix
    write_docling_output := fun _ => .ok ()
    write_asset_image := fun b a _ => .ok ("assets/" ++ b ++ "/" ++ a)
    index_book := fun _ _ => .ok () }

/-- The same environment with a failing parse engine. -/
def envFixParseFail : Env := { envFix with parse := fun _ => .error "boom" }

/-- The same environment with no locatable PDF anywhere. -/
def envFixNoPdf : Env := { envFix with path_exists := fun _ => false }

def bookFix : BookRecord :=
  ⟨"book-1", "u", "md5", "T", none, "upload", "input.pdf", "en", "v1",
    BookStatus.uploaded, none, 0, 0⟩

def jobFix : ParseJobRecord :=
  ⟨"job-1", "book-1", ParseJobState.queued, ParseJobPhase.precheck, 0,
    none, none, none, 0, []⟩

/-- Repository holding the fixture book and its queued job. -/
def stFix : RepoState := save_job (save_book emptyRepo bookFix) jobFix

/-- A parsed block whose page number matches no parsed page. -/
def blkOrphanFix : ParsedBlock :=
  ⟨"bx", 99, "paragraph", "orphan", bbF, 0, [], none, none, none⟩

/-- A parsed asset whose page number matches no parsed page. -/
def astOrphanFix : ParsedAsset := ⟨"ax", 99, "image", bbF, none, some "img.png"⟩

/-- The fixture book extended with an orphan block and an orphan asset
(no page 99 exists). -/
def pbFixOrphan : ParsedBook :=
  { pbFix with blocks := pbFix.blocks ++ [blkOrphanFix], assets := [astOrphanFix] }

/-- Two blocks of the same book and page whose insertion order disagrees
with their reading order. -/
def blkHighFix : BlockRecord :=
  ⟨"k1", "book-1", "book-1-p1", none, "paragraph", "later", none,
    0, 0, 1, 1, 5, none, none, 0, 0⟩

def blkLowFix : BlockRecord :=
  ⟨"k2", "book-1", "book-1-p1", none, "paragraph", "earlier", none,
    0, 0, 1, 1, 1, none, none, 0, 0⟩

/-- Store reached by upserting the high-reading-order block first. -/
def stBlocksFix : RepoState := upsert_blocks emptyRepo [blkHighFix, blkLowFix]

/-- Two page records sharing the derived id, with different widths. -/
def pgV1Fix : PageRecord :=
  ⟨"book-1-p1", "book-1", 1, 100, 200, none, none, "parsed", 0, 0⟩

def pgV2Fix : PageRecord :=
  ⟨"book-1-p1", "book-1", 1, 300, 400, none, none, "parsed", 7, 7⟩

def secV1Fix : SectionRecord := ⟨"sec-1", "book-1", none, 1, "A", 1, 2, 0, 0, 0⟩

def secV2Fix : SectionRecord := ⟨"sec-1", "book-1", none, 2, "B", 1, 3, 1, 4, 4⟩

def astV1Fix : AssetRecord :=
  ⟨"ast-1", "book-1", "book-1-p1", "figure", "a.png", 0, 0, 1, 1, none, 0, 0⟩

def astV2Fix : AssetRecord :=
  ⟨"ast-1", "book-1", "book-1-p1", "table", "b.png", 1, 1, 2, 2, some "blk", 3, 3⟩

/-- Per-flush well-formedness: every block and asset record of the flush
references (by `page_id`) a page record upserted in the same flush, every
flushed page is a parsed page above the resume checkpoint, and every flushed
block (resp. asset) derives from a parsed block (resp. asset) of that page. -/
def GroupSpec (book_id : String) (pb : ParsedBook) (resume : Nat)
    (ps : List PageRecord) (bs : List BlockRecord) (as_ : List AssetRecord) : Prop :=
  (∀ b ∈ bs, b.page_id ∈ ps.map (fun p => p.id))
  ∧ (∀ a ∈ as_, a.page_id ∈ ps.map (fun p => p.id))
  ∧ (∀ p ∈ ps, resume < p.page_number
      ∧ p.page_number ∈ pb.pages.map (fun q => q.page_number))
  ∧ (∀ b ∈ bs, ∃ src ∈ pb.blocks, ∃ p ∈ ps, src.page_number = p.page_number
      ∧ b.id = blockIdOf book_id src.id ∧ b.page_id = p.id)
  ∧ (∀ a ∈ as_, ∃ src ∈ pb.assets, ∃ p ∈ ps, src.page_number = p.page_number
      ∧ a.id = assetIdOf book_id src.id ∧ a.page_id = p.id)

/-- Modelled from the spec: "a partial-update operation; only provided
fields change" — the provided fields take the new value, the omitted ones
and every other field keep their previous value. -/
def PartialJobUpdateSpec (j j' : ParseJobRecord) (state : Option ParseJobState)
    (phase : Option ParseJobPhase) (current_page : Option Nat)
    (total_pages : Option Nat) (error_message : Option String) : Prop :=
  (state = none → j'.state = j.state) ∧ (∀ v, state = some v → j'.state = v)
  ∧ (phase = none → j'.phase = j.phase) ∧ (∀ v, phase = some v → j'.phase = v)
  ∧ (current_page = none → j'.current_page = j.current_page)
  ∧ (∀ v, current_page = some v → j'.current_page = v)
  ∧ (total_pages = none → j'.total_pages = j.total_pages)
  ∧ (∀ v, total_pages = some v → j'.total_pages = some v)
  ∧ (error_message = none → j'.error_message = j.error_message)
  ∧ (∀ v, error_message = some v → j'.error_message = some v)
  ∧ j'.id = j.id ∧ j'.book_id = j.book_id ∧ j'.started_at = j.started_at
  ∧ j'.updated_at = j.updated_at ∧ j'.config_json = j.config_json

/-! ## Lemmas: stores -/

theorem storeGet_storeSet_self {α : Type} (s : Store α) (k : String) (v : α) :
    storeGet (storeSet s k v) k = some v := by
  induction s with
  | nil => simp [storeSet, storeGet]
  | cons kv rest ih =>
      by_cases h : kv.1 = k
      · simp [storeSet, storeGet, h]
      · simp [storeSet, storeGet, h, ih]

theorem storeGet_storeSet_ne {α : Type} (s : Store α) {k k' : String} (v : α)
    (h : k' ≠ k) : storeGet (storeSet s k v) k' = storeGet s k' := by
  induction s with
  | nil =>
      have hne : ¬ (k = k') := fun hh => h hh.symm
      simp [storeSet, storeGet, hne]
  | cons kv rest ih =>
      by_cases hk : kv.1 = k
      · subst hk
        have hne : ¬ (kv.1 = k') := fun hh => h hh.symm
        simp [storeSet, storeGet, hne]
      · by_cases hk' : kv.1 = k'
        · simp [storeSet, storeGet, hk, hk', h]
        · simp [storeSet, storeGet, hk, hk', ih]

theorem mem_storeSet {α : Type} {s : Store α} {k : String} {v : α} {kv : String × α}
    (h : kv ∈ storeSet s k v) : kv ∈ s ∨ kv = (k, v) := by
  induction s with
  | nil => simpa [storeSet] using h
  | cons kv0 rest ih =>
      by_cases hk : kv0.1 = k
      · simp only [storeSet, hk, if_true, List.mem_cons] at h
        rcases h with h | h
        · exact Or.inr h
        · exact Or.inl (List.mem_cons_of_mem _ h)
      · simp only [storeSet, hk, if_false, List.mem_cons] at h
        rcases h with h | h
        · exact Or.inl (h ▸ List.mem_cons_self _ _)
        · rcases ih h with h2 | h2
          · exact Or.inl (List.mem_cons_of_mem _ h2)
          · exact Or.inr h2

theorem storeWf_storeSet {α : Type} {s : Store α} (hs : StoreWf s) (k : String) (v : α) :
    StoreWf (storeSet s k v) := by
  induction s with
  | nil => simp [storeSet, StoreWf]
  | cons kv rest ih =>
      unfold StoreWf at hs
      simp only [List.map_cons, List.nodup_cons] at hs
      by_cases h : kv.1 = k
      · subst h
        unfold StoreWf
        have hset : storeSet (kv :: rest) kv.1 v = (kv.1, v) :: rest := by
          simp [storeSet]
        rw [hset]
        simp only [List.map_cons, List.nodup_cons]
        exact hs
      · have hwf := ih hs.2
        unfold StoreWf at hwf ⊢
        simp only [storeSet, h, if_false, List.map_cons, List.nodup_cons]
        refine ⟨?_, hwf⟩
        intro hmem
        rcases List.mem_map.1 hmem with ⟨⟨k2, v2⟩, hmem2, hk2⟩
        rcases mem_storeSet hmem2 with hold | hnew
        · exact hs.1 (List.mem_map.2 ⟨(k2, v2), hold, hk2⟩)
        · cases hnew
          exact h hk2.symm

theorem countKey_storeSet_self {α : Type} {s : Store α} (hs : StoreWf s)
    (k : String) (v : α) : countKey (storeSet s k v) k = 1 := by
  induction s with
  | nil => simp [storeSet, countKey]
  | cons kv rest ih =>
      unfold StoreWf at hs
      simp only [List.map_cons, List.nodup_cons] at hs
      by_cases h : kv.1 = k
      · subst h
        have hset : storeSet (kv :: rest) kv.1 v = (kv.1, v) :: rest := by
          simp [storeSet]
        rw [hset]
        have hnil : List.filter (fun kv2 => kv2.1 == kv.1) rest = [] := by
          rw [List.filter_eq_nil_iff]
          intro a ha hcontra
          exact hs.1 (List.mem_map.2 ⟨a, ha, by simpa using hcontra⟩)
        unfold countKey
        rw [List.filter_cons]
        simp [hnil]
      · have hih := ih hs.2
        unfold countKey at hih ⊢
        simp only [storeSet, h, if_false]
        rw [List.filter_cons]
        have hb : (kv.1 == k) = false := by simpa using h
        rw [hb]
        simpa using hih

theorem storeWf_upsertAll {α : Type} (idOf : α → String) {s : Store α}
    (hs : StoreWf s) (l : List α) : StoreWf (upsertAll idOf s l) := by
  induction l generalizing s with
  | nil => simpa [upsertAll]
  | cons r rest ih =>
      have h1 : StoreWf (storeSet s (idOf r) r) := storeWf_storeSet hs _ _
      simpa [upsertAll] using ih h1

/-- Upserting two records with the same derived id leaves exactly one stored
entry under that id, holding the later record. -/
theorem upsertAll_pair_same_id {α : Type} (idOf : α → String) {s : Store α}
    (hs : StoreWf s) (r r' : α) (h : idOf r' = idOf r) :
    countKey (upsertAll idOf s [r, r']) (idOf r) = 1
      ∧ storeGet (upsertAll idOf s [r, r']) (idOf r) = some r' := by
  have hrw : upsertAll idOf s [r, r'] = storeSet (storeSet s (idOf r) r) (idOf r) r' := by
    simp [upsertAll, h]
  rw [hrw]
  exact ⟨countKey_storeSet_self (storeWf_storeSet hs _ _) _ _,
    storeGet_storeSet_self _ _ _⟩

theorem storeGet_sqlUpdateRows_self {α : Type} (s : Store α) (k : String) (f : α → α) :
    storeGet (sqlUpdateRows s k f) k = (storeGet s k).map f := by
  induction s with
  | nil => simp [sqlUpdateRows, storeGet]
  | cons kv rest ih =>
      unfold sqlUpdateRows at ih ⊢
      by_cases h : kv.1 = k
      · simp [storeGet, h]
      · simp only [List.map_cons, h, if_false]
        rw [storeGet, storeGet]
        simp only [h, if_false]
        exact ih

theorem applyJobUpdate_partial (j : ParseJobRecord) (state : Option ParseJobState)
    (phase : Option ParseJobPhase) (current_page : Option Nat)
    (total_pages : Option Nat) (error_message : Option String) :
    PartialJobUpdateSpec j (applyJobUpdate j state phase current_page total_pages error_message)
      state phase current_page total_pages error_message := by
  unfold PartialJobUpdateSpec applyJobUpdate
  cases state <;> cases phase <;> cases current_page <;> cases total_pages
    <;> cases error_message <;>
    simp

theorem partialJobUpdateSpec_refl (j : ParseJobRecord) :
    PartialJobUpdateSpec j j none none none none none := by
  unfold PartialJobUpdateSpec
  simp

/-- C8: `update_job_state_phase` is a partial update in both repository
implementations: omitted (`None`) fields keep their previous values, provided
fields take the new value, and every other job field is unchanged. -/
theorem update_job_state_phase_is_partial_update
    (st : RepoState) (job_id : String) (j : ParseJobRecord)
    (state : Option ParseJobState) (phase : Option ParseJobPhase)
    (current_page : Option Nat) (total_pages : Option Nat)
    (error_message : Option String)
    (hj : storeGet st.jobs job_id = some j) :
    (∃ j', get_job (update_job_state_phase st job_id state phase current_page
          total_pages error_message) job_id = some j'
        ∧ PartialJobUpdateSpec j j' state phase current_page total_pages error_message)
    ∧ (∃ j2, get_job (sql_update_job_state_phase st job_id state phase current_page
          total_pages error_message) job_id = some j2
        ∧ PartialJobUpdateSpec j j2 state phase current_page total_pages error_message) := by
  constructor
  · refine ⟨applyJobUpdate j state phase current_page total_pages error_message, ?_, ?_⟩
    · unfold update_job_state_phase get_job
      rw [hj]
      exact storeGet_storeSet_self _ _ _
    · exact applyJobUpdate_partial _ _ _ _ _ _
  · unfold sql_update_job_state_phase
    by_cases hall : state.isNone ∧ phase.isNone ∧ current_page.isNone
        ∧ total_pages.isNone ∧ error_message.isNone
    · rw [if_pos hall]
      refine ⟨j, hj, ?_⟩
      rcases hall with ⟨h1, h2, h3, h4, h5⟩
      rw [Option.isNone_iff_eq_none] at h1 h2 h3 h4 h5
      subst h1; subst h2; subst h3; subst h4; subst h5
      exact partialJobUpdateSpec_refl j
    · rw [if_neg hall]
      refine ⟨applyJobUpdate j state phase current_page total_pages error_message, ?_, ?_⟩
      · show storeGet (sqlUpdateRows st.jobs job_id
            (fun j0 => applyJobUpdate j0 state phase current_page total_pages error_message))
            job_id
          = some (applyJobUpdate j state phase current_page total_pages error_message)
        rw [storeGet_sqlUpdateRows_self, hj]
        rfl
      · exact applyJobUpdate_partial _ _ _ _ _ _

theorem update_job_state_phase_partial_witness :
    ∃ j', get_job (update_job_state_phase stFix "job-1" (some ParseJobState.running)
        none (some 2) none none) "job-1" = some j'
      ∧ PartialJobUpdateSpec jobFix j' (some ParseJobState.running) none (some 2) none none :=
  (update_job_state_phase_is_partial_update stFix "job-1" jobFix
    (some ParseJobState.running) none (some 2) none none rfl).1

/-- C4: upserting two records with the same derived id (in either repository
implementation, for pages, sections, blocks and assets alike) leaves exactly
one stored record under that id, with the later record's values. -/
theorem upsert_same_id_twice_keeps_latest (st : RepoState)
    (hwp : StoreWf st.pages) (hws : StoreWf st.sections)
    (hwb : StoreWf st.blocks) (hwa : StoreWf st.assets) :
    (∀ p p' : PageRecord, p'.id = p.id →
      countKey (upsert_pages st [p, p']).pages p.id = 1
      ∧ storeGet (upsert_pages st [p, p']).pages p.id = some p'
      ∧ countKey (sql_upsert_pages st [p, p']).pages p.id = 1
      ∧ storeGet (sql_upsert_pages st [p, p']).pages p.id = some p')
    ∧ (∀ s1 s2 : SectionRecord, s2.id = s1.id →
      countKey (upsert_sections st [s1, s2]).sections s1.id = 1
      ∧ storeGet (upsert_sections st [s1, s2]).sections s1.id = some s2
      ∧ countKey (sql_upsert_sections st [s1, s2]).sections s1.id = 1
      ∧ storeGet (sql_upsert_sections st [s1, s2]).sections s1.id = some s2)
    ∧ (∀ b b' : BlockRecord, b'.id = b.id →
      countKey (upsert_blocks st [b, b']).blocks b.id = 1
      ∧ storeGet (upsert_blocks st [b, b']).blocks b.id = some b'
      ∧ countKey (sql_upsert_blocks st [b, b']).blocks b.id = 1
      ∧ storeGet (sql_upsert_blocks st [b, b']).blocks b.id = some b')
    ∧ (∀ a a' : AssetRecord, a'.id = a.id →
      countKey (upsert_assets st [a, a']).assets a.id = 1
      ∧ storeGet (upsert_assets st [a, a']).assets a.id = some a'
      ∧ countKey (sql_upsert_assets st [a, a']).assets a.id = 1
      ∧ storeGet (sql_upsert_assets st [a, a']).assets a.id = some a') := by
  refine ⟨?_, ?_, ?_, ?_⟩
  · intro p p' h
    have hh := upsertAll_pair_same_id (fun r => r.id) hwp p p' h
    exact ⟨hh.1, hh.2, hh.1, hh.2⟩
  · intro s1 s2 h
    have hh := upsertAll_pair_same_id (fun r => r.id) hws s1 s2 h
    exact ⟨hh.1, hh.2, hh.1, hh.2⟩
  · intro b b' h
    have hh := upsertAll_pair_same_id (fun r => r.id) hwb b b' h
    exact ⟨hh.1, hh.2, hh.1, hh.2⟩
  · intro a a' h
    have hh := upsertAll_pair_same_id (fun r => r.id) hwa a a' h
    exact ⟨hh.1, hh.2, hh.1, hh.2⟩

theorem upsert_same_id_twice_witness :
    countKey (upsert_pages emptyRepo [pgV1Fix, pgV2Fix]).pages pgV1Fix.id = 1
    ∧ storeGet (upsert_pages emptyRepo [pgV1Fix, pgV2Fix]).pages pgV1Fix.id = some pgV2Fix
    ∧ countKey (upsert_assets emptyRepo [astV1Fix, astV2Fix]).assets astV1Fix.id = 1
    ∧ storeGet (upsert_assets emptyRepo [astV1Fix, astV2Fix]).assets astV1Fix.id = some astV2Fix := by
  have h := upsert_same_id_twice_keeps_latest emptyRepo (by decide) (by decide)
    (by decide) (by decide)
  have h1 := h.1 pgV1Fix pgV2Fix rfl
  have h4 := h.2.2.2 astV1Fix astV2Fix rfl
  exact ⟨h1.1, h1.2.1, h4.1, h4.2.1⟩

/-- C7 counterexample: both implementations return the stored blocks in
insertion order, which can disagree with reading order even for two blocks of
the same page of the same book — the claimed reading-order sorting does not
exist in the code. -/
theorem list_blocks_for_book_order_counterexample :
    (list_blocks_for_book stBlocksFix "book-1").map (fun b => b.reading_order) = [5, 1]
    ∧ (sql_list_blocks_for_book stBlocksFix "book-1").map (fun b => b.reading_order) = [5, 1]
    ∧ ¬ List.Sorted (fun a b => a ≤ b) ([5, 1] : List Nat) := by
  refine ⟨rfl, rfl, ?_⟩
  decide

/-- C7 (amended): `list_blocks_for_book` returns exactly the stored blocks
whose `book_id` matches, in store (insertion) order — a sublist of the store's
values, with no reordering — and the SQL implementation returns the very same
sequence as the in-memory one. -/
theorem list_blocks_for_book_insertion_order (st : RepoState) (book_id : String) :
    sql_list_blocks_for_book st book_id = list_blocks_for_book st book_id
    ∧ (∀ b, b ∈ list_blocks_for_book st book_id
        ↔ b ∈ storeValues st.blocks ∧ b.book_id = book_id)
    ∧ (list_blocks_for_book st book_id).Sublist (storeValues st.blocks) := by
  refine ⟨?_, ?_, ?_⟩
  · unfold sql_list_blocks_for_book list_blocks_for_book
    have : rebuildBlock = id := by
      funext m
      rfl
    rw [this, List.map_id]
  · intro b
    unfold list_blocks_for_book
    rw [List.mem_filter]
    simp
  · exact List.filter_sublist _

/-- C10: `run_job` on a missing job, or on a job whose book is missing,
raises the NotFound error with the repository state returned exactly as it
was — no job, book, page, section, block or asset write happens, and nothing
is marked FAILED. -/
theorem run_job_missing_raises_before_any_write (env : Env) (batch_size : Nat)
    (persist : Bool) (pause : Nat → Bool) (st : RepoState) (job_id : String) :
    (get_job st job_id = none →
      run_job env batch_size persist pause st job_id
        = ⟨st, .error ("Parse job " ++ job_id ++ " not found")⟩)
    ∧ (∀ job, get_job st job_id = some job → get_book st job.book_id = none →
      run_job env batch_size persist pause st job_id
        = ⟨st, .error ("Book " ++ job.book_id ++ " not found for job " ++ job_id)⟩) := by
  constructor
  · intro h
    simp [run_job, h]
  · intro job hj hb
    simp [run_job, hj, hb]

theorem run_job_missing_witness :
    run_job envFix 50 true (fun _ => false) emptyRepo "job-1"
      = ⟨emptyRepo, .error "Parse job job-1 not found"⟩ :=
  (run_job_missing_raises_before_any_write envFix 50 true (fun _ => false)
    emptyRepo "job-1").1 rfl

/-- C5 counterexample: with the fixture job queued and its book present but
the PDF unlocatable, `run_job` raises the source-missing error while leaving
the repository state untouched — the job is still QUEUED, not FAILED. -/
theorem run_job_source_missing_counterexample :
    (run_job envFixNoPdf 50 true (fun _ => false) stFix "job-1").result
        = .error "PDF not found at input.pdf"
    ∧ (run_job envFixNoPdf 50 true (fun _ => false) stFix "job-1").st = stFix
    ∧ (get_job stFix "job-1").map (fun j => j.state) = some ParseJobState.queued
    ∧ some ParseJobState.queued ≠ some ParseJobState.failed := by
  refine ⟨rfl, rfl, rfl, by decide⟩

/-- C5 (amended): when the original document cannot be located at pipeline
start, `run_job` raises before entering the guarded section: the repository
state is returned unchanged, so the job keeps its prior state (it is neither
FAILED nor RUNNING) and the book status is untouched. -/
theorem run_job_source_missing_no_state_write (env : Env) (batch_size : Nat)
    (persist : Bool) (pause : Nat → Bool) (st : RepoState) (job_id : String)
    (job : ParseJobRecord) (book : BookRecord) (e : String)
    (hj : get_job st job_id = some job)
    (hb : get_book st job.book_id = some book)
    (hl : locate_pdf env book.original_file_path book.id = .error e) :
    run_job env batch_size persist pause st job_id = ⟨st, .error e⟩ := by
  simp [run_job, hj, hb, hl]

theorem run_job_source_missing_witness :
    run_job envFixNoPdf 50 true (fun _ => false) stFix "job-1"
      = ⟨stFix, .error "PDF not found at input.pdf"⟩ :=
  run_job_source_missing_no_state_write envFixNoPdf 50 true (fun _ => false)
    stFix "job-1" jobFix bookFix "PDF not found at input.pdf" rfl rfl rfl

/-! ## Lemmas: which stores each repository operation touches -/

theorem books_update_job_state_phase (st : RepoState) (jid : String)
    (a : Option ParseJobState) (b : Option ParseJobPhase) (c d : Option Nat)
    (e : Option String) :
    (update_job_state_phase st jid a b c d e).books = st.books := by
  unfold update_job_state_phase
  split <;> rfl

theorem jobs_update_book_status (st : RepoState) (bid : String)
    (sta : BookStatus) (pc : Option Nat) :
    (update_book_status st bid sta pc).jobs = st.jobs := by
  unfold update_book_status
  split <;> rfl

theorem storeGet_jobs_update_jsp_self {st : RepoState} {jid : String}
    {j : ParseJobRecord} (hj : storeGet st.jobs jid = some j)
    (a : Option ParseJobState) (b : Option ParseJobPhase) (c d : Option Nat)
    (e : Option String) :
    storeGet (update_job_state_phase st jid a b c d e).jobs jid
      = some (applyJobUpdate j a b c d e) := by
  unfold update_job_state_phase
  rw [hj]
  exact storeGet_storeSet_self _ _ _

theorem jobs_present_update_jsp {st : RepoState} (jid : String)
    (a : Option ParseJobState) (b : Option ParseJobPhase) (c d : Option Nat)
    (e : Option String) (k : String)
    (h : (storeGet st.jobs k).isSome) :
    (storeGet (update_job_state_phase st jid a b c d e).jobs k).isSome := by
  unfold update_job_state_phase
  cases hj : storeGet st.jobs jid with
  | none => exact h
  | some j =>
      by_cases hk : k = jid
      · subst hk
        show (storeGet (storeSet st.jobs k _) k).isSome
        rw [storeGet_storeSet_self]
        rfl
      · show (storeGet (storeSet st.jobs jid _) k).isSome
        rw [storeGet_storeSet_ne _ _ hk]
        exact h

theorem books_present_update_bs {st : RepoState} (bid : String)
    (sta : BookStatus) (pc : Option Nat) (k : String)
    (h : (storeGet st.books k).isSome) :
    (storeGet (update_book_status st bid sta pc).books k).isSome := by
  unfold update_book_status
  cases hb : storeGet st.books bid with
  | none => exact h
  | some b =>
      by_cases hk : k = bid
      · subst hk
        show (storeGet (storeSet st.books k _) k).isSome
        rw [storeGet_storeSet_self]
        rfl
      · show (storeGet (storeSet st.books bid _) k).isSome
        rw [storeGet_storeSet_ne _ _ hk]
        exact h

theorem storeGet_books_update_bs_self {st : RepoState} {bid : String}
    {b : BookRecord} (hb : storeGet st.books bid = some b)
    (sta : BookStatus) (pc : Option Nat) :
    ∃ b2, storeGet (update_book_status st bid sta pc).books bid = some b2
      ∧ b2.status = sta := by
  unfold update_book_status
  rw [hb]
  cases pc with
  | none => exact ⟨_, storeGet_storeSet_self _ _ _, rfl⟩
  | some n => exact ⟨_, storeGet_storeSet_self _ _ _, rfl⟩

/-! ## Lemmas: ingestion touches neither the books store nor job presence -/

theorem flushBatch_books (jid : String) (pause : Nat → Bool) (s : IngestSt)
    (pn : Nat) : (flushBatch jid pause s pn).1.st.books = s.st.books := by
  unfold flushBatch
  simp only []
  rw [books_update_job_state_phase]
  rfl

theorem flushBatch_jobs_present (jid : String) (pause : Nat → Bool)
    (s : IngestSt) (pn : Nat) (k : String)
    (h : (storeGet s.st.jobs k).isSome) :
    (storeGet (flushBatch jid pause s pn).1.st.jobs k).isSome := by
  unfold flushBatch
  exact jobs_present_update_jsp _ _ _ _ _ _ _ h

theorem ingest_loop_books_jobs (env : Env) (B : Nat) (pause : Nat → Bool)
    (job_id book_id : String) (pb : ParsedBook) (resume : Nat)
    (smap : Store String) (pages : List ParsedPage) :
    ∀ s : IngestSt,
      (ingest_loop env B pause job_id book_id pb resume smap pages s).state.books
          = s.st.books
      ∧ ∀ k, (storeGet s.st.jobs k).isSome →
          (storeGet (ingest_loop env B pause job_id book_id pb resume smap
            pages s).state.jobs k).isSome := by
  induction pages with
  | nil =>
      intro s
      unfold ingest_loop
      by_cases hbp : s.batch_pages.isEmpty
      · simp only [hbp, if_true]
        exact ⟨rfl, fun k h => h⟩
      · simp only [hbp, if_false]
        constructor
        · exact flushBatch_books _ _ _ _
        · intro k h
          exact flushBatch_jobs_present _ _ _ _ _ h
  | cons page rest ih =>
      intro s
      unfold ingest_loop
      by_cases hskip : page.page_number ≤ resume
      · simp only [hskip, if_true]
        exact ih s
      · simp only [hskip, if_false]
        cases hma : map_assets_go env book_id (pageIdOf book_id page.page_number)
            (map_blocks book_id (pageIdOf book_id page.page_number)
              (pb.blocks.filter (fun b => b.page_number == page.page_number)) smap).2
            (pb.assets.filter (fun a => a.page_number == page.page_number)) with
        | error e =>
            simp only [hma]
            exact ⟨rfl, fun k h => h⟩
        | ok asset_records =>
            simp only [hma]
            split
            · split
              · constructor
                · exact flushBatch_books _ _ _ _
                · intro k h
                  exact flushBatch_jobs_present _ _ _ _ _ h
              · rcases ih (flushBatch job_id pause _ page.page_number).1 with ⟨ih1, ih2⟩
                constructor
                · rw [ih1]
                  exact flushBatch_books _ _ _ _
                · intro k h
                  exact ih2 k (flushBatch_jobs_present _ _ _ _ _ h)
            · exact ih _

theorem ingest_parsed_book_books_jobs (env : Env) (B : Nat) (pause : Nat → Bool)
    (st : RepoState) (job_id book_id : String) (pb : ParsedBook) (resume : Nat) :
    (ingest_parsed_book env B pause st job_id book_id pb resume).state.books = st.books
    ∧ ∀ k, (storeGet st.jobs k).isSome →
        (storeGet (ingest_parsed_book env B pause st job_id book_id pb
          resume).state.jobs k).isSome := by
  unfold ingest_parsed_book
  by_cases hsec : (map_sections book_id
      (sortByKey (fun ps => ps.order_index) pb.sections)).1.isEmpty
  · simp only [hsec, if_true]
    exact ingest_loop_books_jobs env B pause job_id book_id pb resume _ _ _
  · simp only [hsec, if_false]
    have h := ingest_loop_books_jobs env B pause job_id book_id pb resume
      (map_sections book_id (sortByKey (fun ps => ps.order_index) pb.sections)).2
      (sortByKey (fun p => p.page_number) pb.pages)
      ⟨upsert_sections st (map_sections book_id
          (sortByKey (fun ps => ps.order_index) pb.sections)).1,
        [Event.upsertSectionsEv (map_sections book_id
          (sortByKey (fun ps => ps.order_index) pb.sections)).1],
        [], [], [], resume, 0⟩
    exact h

/-! ## Lemmas: the except handler of `run_job` -/

theorem markFailed_marks {st : RepoState} {job_id bid : String} (msg : String)
    {j : ParseJobRecord} {b : BookRecord}
    (hj : storeGet st.jobs job_id = some j)
    (hb : storeGet st.books bid = some b) :
    ∃ j' b', get_job (markFailed st job_id bid msg) job_id = some j'
      ∧ j'.state = ParseJobState.failed
      ∧ j'.error_message = some msg
      ∧ get_book (markFailed st job_id bid msg) bid = some b'
      ∧ b'.status = BookStatus.failed := by
  unfold markFailed
  set st1 := update_job_state_phase st job_id (some ParseJobState.failed)
    none none none (some msg) with hst1
  have hj1 : storeGet st1.jobs job_id
      = some (applyJobUpdate j (some ParseJobState.failed) none none none (some msg)) :=
    storeGet_jobs_update_jsp_self hj _ _ _ _ _
  have hb1 : storeGet st1.books bid = some b := by
    rw [hst1, books_update_job_state_phase]
    exact hb
  rcases storeGet_books_update_bs_self hb1 BookStatus.failed none with ⟨b2, hb2, hb2s⟩
  refine ⟨applyJobUpdate j (some ParseJobState.failed) none none none (some msg),
    b2, ?_, rfl, rfl, hb2, hb2s⟩
  show storeGet (update_book_status st1 bid BookStatus.failed none).jobs job_id = _
  rw [jobs_update_book_status]
  exact hj1

/-- C1: whenever `run_job` gets past the pre-`try` lookups (job and book
exist, the PDF is locatable) and then re-raises an uncaught error from the
PARSE / DB_INGESTION / INDEXING stages, the returned repository state already
has the job FAILED with that error message (in particular not RUNNING) and
the book failed — the writes happen before the exception reaches the caller. -/
theorem run_job_failure_marks_job_and_book (env : Env) (B : Nat)
    (persist : Bool) (pause : Nat → Bool) (st : RepoState) (job_id : String)
    (job : ParseJobRecord) (book : BookRecord) (e : String)
    (hj : get_job st job_id = some job)
    (hb : get_book st job.book_id = some book)
    (hbid : book.id = job.book_id)
    (hloc : ∃ p, locate_pdf env book.original_file_path book.id = .ok p)
    (hrun : (run_job env B persist pause st job_id).result = .error e) :
    ∃ j' b', get_job (run_job env B persist pause st job_id).st job_id = some j'
      ∧ j'.state = ParseJobState.failed
      ∧ j'.error_message = some e
      ∧ j'.state ≠ ParseJobState.running
      ∧ get_book (run_job env B persist pause st job_id).st book.id = some b'
      ∧ b'.status = BookStatus.failed := by
  rcases hloc with ⟨p, hp⟩
  have hrw : run_job env B persist pause st job_id
      = run_job_body env B persist pause st job_id job book p := by
    simp [run_job, hj, hb, hp]
  rw [hrw] at hrun ⊢
  unfold run_job_body at hrun ⊢
  have hjs : storeGet st.jobs job_id = some job := hj
  have hbs : storeGet st.books book.id = some book := by
    rw [hbid]; exact hb
  -- presence of job and book after the five pre-parse bookkeeping writes
  set st1 := update_job_state_phase st job_id (some ParseJobState.running)
    (some ParseJobPhase.precheck) none none none with hst1
  set st2 := update_book_status st1 book.id BookStatus.parsing none with hst2
  set st3 := update_book_status st2 book.id BookStatus.parsing (env.count_pages p) with hst3
  set st4 := update_job_state_phase st3 job_id none none none (env.count_pages p) none with hst4
  set st5 := update_job_state_phase st4 job_id none (some ParseJobPhase.docling_parse)
    none none none with hst5
  have hj5 : (storeGet st5.jobs job_id).isSome := by
    apply jobs_present_update_jsp
    apply jobs_present_update_jsp
    rw [hst3, jobs_update_book_status, hst2, jobs_update_book_status]
    apply jobs_present_update_jsp
    rw [hjs]; rfl
  have hb5 : (storeGet st5.books book.id).isSome := by
    rw [hst5, books_update_job_state_phase, hst4, books_update_job_state_phase]
    apply books_present_update_bs
    apply books_present_update_bs
    rw [hst1, books_update_job_state_phase]
    rw [hbs]; rfl
  rcases Option.isSome_iff_exists.1 hj5 with ⟨j5, hj5e⟩
  rcases Option.isSome_iff_exists.1 hb5 with ⟨b5, hb5e⟩
  cases hparse : env.parse p with
  | error e1 =>
      simp only [hparse] at hrun ⊢
      have he : e1 = e := by
        simpa using hrun
      subst he
      rcases markFailed_marks e1 hj5e hb5e with ⟨j', b', h1, h2, h3, h4, h5⟩
      refine ⟨j', b', h1, h2, h3, ?_, h4, h5⟩
      rw [h2]
      decide
  | ok parsed_book =>
      simp only [hparse] at hrun ⊢
      cases hdoc : (if persist then env.write_docling_output book.id
          else Except.ok ()) with
      | error e2 =>
          simp only [hdoc] at hrun ⊢
          have he : e2 = e := by simpa using hrun
          subst he
          rcases markFailed_marks e2 hj5e hb5e with ⟨j', b', h1, h2, h3, h4, h5⟩
          refine ⟨j', b', h1, h2, h3, ?_, h4, h5⟩
          rw [h2]
          decide
      | ok u =>
          simp only [hdoc] at hrun ⊢
          set st6 := update_job_state_phase st5 job_id none
            (some ParseJobPhase.db_ingestion) none none none with hst6
          have hj6 : (storeGet st6.jobs job_id).isSome :=
            jobs_present_update_jsp _ _ _ _ _ _ _ hj5
          have hb6 : (storeGet st6.books book.id).isSome := by
            rw [hst6, books_update_job_state_phase]
            exact hb5
          cases hing : ingest_parsed_book env B pause st6 job_id book.id parsed_book
              job.current_page with
          | err stE trE e3 =>
              simp only [hing] at hrun ⊢
              have he : e3 = e := by simpa using hrun
              subst he
              have hpre := ingest_parsed_book_books_jobs env B pause st6 job_id
                book.id parsed_book job.current_page
              rw [hing] at hpre
              have hjE : (storeGet stE.jobs job_id).isSome := hpre.2 job_id hj6
              have hbE : (storeGet stE.books book.id).isSome := by
                have hbk : stE.books = st6.books := hpre.1
                rw [hbk]
                exact hb6
              rcases Option.isSome_iff_exists.1 hjE with ⟨jE, hjEe⟩
              rcases Option.isSome_iff_exists.1 hbE with ⟨bE, hbEe⟩
              rcases markFailed_marks e3 hjEe hbEe with ⟨j', b', h1, h2, h3, h4, h5⟩
              refine ⟨j', b', h1, h2, h3, ?_, h4, h5⟩
              rw [h2]
              decide
          | done st7 tr7 =>
              simp only [hing] at hrun ⊢
              set st8 := update_job_state_phase st7 job_id none
                (some ParseJobPhase.indexing) none none none with hst8
              have hpre := ingest_parsed_book_books_jobs env B pause st6 job_id
                book.id parsed_book job.current_page
              rw [hing] at hpre
              have hj8 : (storeGet st8.jobs job_id).isSome := by
                apply jobs_present_update_jsp
                exact hpre.2 job_id hj6
              have hb8 : (storeGet st8.books book.id).isSome := by
                rw [hst8, books_update_job_state_phase]
                have hbk : st7.books = st6.books := hpre.1
                rw [hbk]
                exact hb6
              rcases Option.isSome_iff_exists.1 hj8 with ⟨j8, hj8e⟩
              rcases Option.isSome_iff_exists.1 hb8 with ⟨b8, hb8e⟩
              cases hidx : env.index_book book.id (list_blocks_for_book st8 book.id) with
              | error e4 =>
                  simp only [hidx] at hrun ⊢
                  have he : e4 = e := by simpa using hrun
                  subst he
                  rcases markFailed_marks e4 hj8e hb8e with ⟨j', b', h1, h2, h3, h4, h5⟩
                  refine ⟨j', b', h1, h2, h3, ?_, h4, h5⟩
                  rw [h2]
                  decide
              | ok u2 =>
                  simp only [hidx] at hrun
                  cases hrun

theorem run_job_failure_witness :
    ∃ j' b', get_job (run_job envFixParseFail 2 true (fun _ => false) stFix "job-1").st
        "job-1" = some j'
      ∧ j'.state = ParseJobState.failed
      ∧ j'.error_message = some "boom"
      ∧ j'.state ≠ ParseJobState.running
      ∧ get_book (run_job envFixParseFail 2 true (fun _ => false) stFix "job-1").st
          bookFix.id = some b'
      ∧ b'.status = BookStatus.failed :=
  run_job_failure_marks_job_and_book envFixParseFail 2 true (fun _ => false) stFix
    "job-1" jobFix bookFix "boom" rfl rfl rfl ⟨"input.pdf", rfl⟩ rfl

/-! ## Lemmas: sorting, mapping helpers, derived-id injectivity -/

theorem insertByKey_length {α : Type} (key : α → Nat) (x : α) :
    ∀ l : List α, (insertByKey key x l).length = l.length + 1 := by
  intro l
  induction l with
  | nil => rfl
  | cons y ys ih =>
      unfold insertByKey
      by_cases h : key y < key x
      · simp [h, ih]
      · simp [h]

theorem sortByKey_length {α : Type} (key : α → Nat) :
    ∀ l : List α, (sortByKey key l).length = l.length := by
  intro l
  induction l with
  | nil => rfl
  | cons x xs ih =>
      unfold sortByKey
      rw [insertByKey_length, ih]
      rfl

theorem map_sections_go_length (book_id : String) :
    ∀ (l : List ParsedSection) (m : Store String),
      (map_sections_go book_id l m).1.length = l.length := by
  intro l
  induction l with
  | nil => intro m; rfl
  | cons ps rest ih =>
      intro m
      unfold map_sections_go
      simp only [List.length_cons]
      rw [ih]

theorem string_append_cancel_left {a b c : String} (h : a ++ b = a ++ c) : b = c := by
  have h2 := congrArg String.data h
  simp only [String.data_append] at h2
  exact String.ext (List.append_cancel_left h2)

theorem blockIdOf_inj {book_id x y : String} (h : blockIdOf book_id x = blockIdOf book_id y) :
    x = y := by
  unfold blockIdOf at h
  rw [String.append_assoc, String.append_assoc] at h
  exact string_append_cancel_left (string_append_cancel_left h)

theorem assetIdOf_inj {book_id x y : String}
    (h : assetIdOf book_id x = assetIdOf book_id y) : x = y := by
  unfold assetIdOf at h
  rw [String.append_assoc, String.append_assoc] at h
  exact string_append_cancel_left (string_append_cancel_left h)

theorem map_blocks_go_spec (book_id page_id : String) (smap : Store String) :
    ∀ (blocks : List ParsedBlock) (owner : Store String),
      ∀ r ∈ (map_blocks_go book_id page_id smap blocks owner).1,
        ∃ src ∈ blocks, r.id = blockIdOf book_id src.id ∧ r.page_id = page_id := by
  intro blocks
  induction blocks with
  | nil =>
      intro owner r hr
      simp [map_blocks_go] at hr
  | cons b rest ih =>
      intro owner r hr
      simp only [map_blocks_go] at hr
      rcases List.mem_cons.1 hr with h | h
      · subst h
        exact ⟨b, List.mem_cons_self _ _, rfl, rfl⟩
      · rcases ih _ r h with ⟨src, hsrc, h1, h2⟩
        exact ⟨src, List.mem_cons_of_mem _ hsrc, h1, h2⟩

theorem map_assets_go_spec (env : Env) (book_id page_id : String) (owner : Store String) :
    ∀ (assets : List ParsedAsset) (recs : List AssetRecord),
      map_assets_go env book_id page_id owner assets = .ok recs →
      ∀ r ∈ recs, r.page_id = page_id := by
  intro assets
  induction assets with
  | nil =>
      intro recs h r hr
      simp only [map_assets_go] at h
      cases h
      cases hr
  | cons a rest ih =>
      intro recs h r hr
      simp only [map_assets_go] at h
      split at h
      · cases h
      · split at h
        · cases h
        · rename_i recs0 hrec
          cases h
          rcases List.mem_cons.1 hr with h1 | h1
          · subst h1
            rfl
          · exact ih recs0 hrec r h1

/-- Every asset record produced by `_map_assets` carries the derived id of
one of the parsed assets it was given. -/
theorem map_assets_go_prov (env : Env) (book_id page_id : String)
    (owner : Store String) :
    ∀ (assets : List ParsedAsset) (recs : List AssetRecord),
      map_assets_go env book_id page_id owner assets = .ok recs →
      ∀ r ∈ recs, ∃ src ∈ assets, r.id = assetIdOf book_id src.id := by
  intro assets
  induction assets with
  | nil =>
      intro recs h r hr
      simp only [map_assets_go] at h
      cases h
      cases hr
  | cons a rest ih =>
      intro recs h r hr
      simp only [map_assets_go] at h
      split at h
      · cases h
      · split at h
        · cases h
        · rename_i recs0 hrec
          cases h
          rcases List.mem_cons.1 hr with h1 | h1
          · subst h1
            exact ⟨a, List.mem_cons_self _ _, rfl⟩
          · rcases ih recs0 hrec r h1 with ⟨src, hsrc, hid⟩
            exact ⟨src, List.mem_cons_of_mem _ hsrc, hid⟩

/-! ## Lemmas: grouped traces -/

theorem groupSpec_nil (book_id : String) (pb : ParsedBook) (resume : Nat) :
    GroupSpec book_id pb resume [] [] [] := by
  unfold GroupSpec
  simp

theorem grouped_no_sections {P : List PageRecord → List BlockRecord → List AssetRecord → Nat → Prop}
    {tr : List Event} (h : Grouped P tr) : ∀ e ∈ tr, e.isSectionsEv = false := by
  induction h with
  | nil =>
      intro e he
      cases he
  | grp ps bs as_ n ans rest hP hrest ih =>
      intro e he
      simp only [List.mem_cons] at he
      rcases he with h1 | h1 | h1 | h1 | h1 | h1
      · subst h1; rfl
      · subst h1; rfl
      · subst h1; rfl
      · subst h1; rfl
      · subst h1; rfl
      · exact ih e h1

theorem grouped_blockBatches
    {P : List PageRecord → List BlockRecord → List AssetRecord → Nat → Prop}
    {tr : List Event} (h : Grouped P tr) :
    ∀ bs ∈ blockBatchesOf tr, ∃ ps as_ n, P ps bs as_ n := by
  induction h with
  | nil =>
      intro bs hbs
      simp [blockBatchesOf] at hbs
  | grp ps bs as_ n ans rest hP hrest ih =>
      intro bs2 hbs2
      simp only [blockBatchesOf, List.filterMap_cons] at hbs2
      simp only [List.mem_cons] at hbs2
      rcases hbs2 with h1 | h1
      · subst h1
        exact ⟨ps, as_, n, hP⟩
      · exact ih bs2 h1

theorem grouped_pageBatches
    {P : List PageRecord → List BlockRecord → List AssetRecord → Nat → Prop}
    {tr : List Event} (h : Grouped P tr) :
    ∀ ps ∈ pageBatchesOf tr, ∃ bs as_ n, P ps bs as_ n := by
  induction h with
  | nil =>
      intro ps hps
      simp [pageBatchesOf] at hps
  | grp ps bs as_ n ans rest hP hrest ih =>
      intro ps2 hps2
      simp only [pageBatchesOf, List.filterMap_cons] at hps2
      simp only [List.mem_cons] at hps2
      rcases hps2 with h1 | h1
      · subst h1
        exact ⟨bs, as_, n, hP⟩
      · exact ih ps2 h1

theorem grouped_assetBatches
    {P : List PageRecord → List BlockRecord → List AssetRecord → Nat → Prop}
    {tr : List Event} (h : Grouped P tr) :
    ∀ as2 ∈ assetBatchesOf tr, ∃ ps bs n, P ps bs as2 n := by
  induction h with
  | nil =>
      intro as2 has2
      simp [assetBatchesOf] at has2
  | grp ps bs as_ n ans rest hP hrest ih =>
      intro as2 has2
      simp only [assetBatchesOf, List.filterMap_cons] at has2
      simp only [List.mem_cons] at has2
      rcases has2 with h1 | h1
      · subst h1
        exact ⟨ps, bs, n, hP⟩
      · exact ih as2 h1

/-- The page loop only ever appends whole flush groups to the trace, and
every group satisfies the per-flush well-formedness `GroupSpec` provided the
pending batches already do. -/
theorem ingest_loop_grouped (env : Env) (B : Nat) (pause : Nat → Bool)
    (job_id book_id : String) (pb : ParsedBook) (resume : Nat) (smap : Store String) :
    ∀ (pages : List ParsedPage) (s : IngestSt),
      (∀ p ∈ pages, p ∈ pb.pages) →
      GroupSpec book_id pb resume s.batch_pages s.batch_blocks s.batch_assets →
      ∃ ext, (ingest_loop env B pause job_id book_id pb resume smap pages s).events
          = s.trace ++ ext
        ∧ Grouped (fun ps bs as_ _ => GroupSpec book_id pb resume ps bs as_) ext := by
  intro pages
  induction pages with
  | nil =>
      intro s hpages hinv
      unfold ingest_loop
      by_cases hbp : s.batch_pages.isEmpty
      · simp only [hbp, if_true]
        exact ⟨[], by simp [IngestResult.events], Grouped.nil⟩
      · simp only [hbp, if_false]
        refine ⟨flushEvents s.batch_pages s.batch_blocks s.batch_assets
          (((s.batch_pages.getLast?).map (fun p => p.page_number)).getD 0)
          (pause s.checks), ?_, ?_⟩
        · simp [flushBatch, IngestResult.events, flushEvents]
        · exact Grouped.grp _ _ _ _ _ [] hinv Grouped.nil
  | cons page rest ih =>
      intro s hpages hinv
      have hpage : page ∈ pb.pages := hpages page (List.mem_cons_self _ _)
      have hrest : ∀ p ∈ rest, p ∈ pb.pages :=
        fun p hp => hpages p (List.mem_cons_of_mem _ hp)
      unfold ingest_loop
      by_cases hskip : page.page_number ≤ resume
      · simp only [hskip, if_true]
        exact ih s hrest hinv
      · simp only [hskip, if_false]
        cases hma : map_assets_go env book_id (pageIdOf book_id page.page_number)
            (map_blocks book_id (pageIdOf book_id page.page_number)
              (pb.blocks.filter (fun b => b.page_number == page.page_number)) smap).2
            (pb.assets.filter (fun a => a.page_number == page.page_number)) with
        | error e =>
            simp only [hma]
            exact ⟨[], by simp [IngestResult.events], Grouped.nil⟩
        | ok asset_records =>
            simp only [hma]
            -- the extended batches still satisfy the invariant
            have hinv2 : GroupSpec book_id pb resume
                (s.batch_pages ++ [pageRecordOf book_id page])
                (s.batch_blocks ++ (map_blocks book_id (pageIdOf book_id page.page_number)
                  (pb.blocks.filter (fun b => b.page_number == page.page_number)) smap).1)
                (s.batch_assets ++ asset_records) := by
              rcases hinv with ⟨hc1, hc2, hc3, hc4, hc5⟩
              refine ⟨?_, ?_, ?_, ?_, ?_⟩
              · intro b hb
                rcases List.mem_append.1 hb with h1 | h1
                · rw [List.map_append]
                  exact List.mem_append.2 (Or.inl (hc1 b h1))
                · rcases map_blocks_go_spec book_id (pageIdOf book_id page.page_number)
                      smap _ [] b h1 with ⟨src, hsrc, hid, hpid⟩
                  rw [hpid]
                  rw [List.map_append]
                  exact List.mem_append.2 (Or.inr (by simp [pageRecordOf]))
              · intro a ha
                rcases List.mem_append.1 ha with h1 | h1
                · rw [List.map_append]
                  exact List.mem_append.2 (Or.inl (hc2 a h1))
                · have := map_assets_go_spec env book_id (pageIdOf book_id page.page_number)
                    _ _ _ hma a h1
                  rw [this, List.map_append]
                  exact List.mem_append.2 (Or.inr (by simp [pageRecordOf]))
              · intro p hp
                rcases List.mem_append.1 hp with h1 | h1
                · exact hc3 p h1
                · simp only [List.mem_singleton] at h1
                  subst h1
                  exact ⟨Nat.lt_of_not_le hskip, List.mem_map.2 ⟨page, hpage, rfl⟩⟩
              · intro b hb
                rcases List.mem_append.1 hb with h1 | h1
                · rcases hc4 b h1 with ⟨src, hsrc, p, hpmem, hnum, hid, hpid⟩
                  exact ⟨src, hsrc, p, List.mem_append.2 (Or.inl hpmem), hnum, hid, hpid⟩
                · rcases map_blocks_go_spec book_id (pageIdOf book_id page.page_number)
                      smap _ [] b h1 with ⟨src, hsrc, hid, hpid⟩
                  have hsrcpb : src ∈ pb.blocks := List.mem_of_mem_filter hsrc
                  have hsrcnum : src.page_number = page.page_number := by
                    have := List.of_mem_filter hsrc
                    simpa using this
                  refine ⟨src, hsrcpb, pageRecordOf book_id page,
                    List.mem_append.2 (Or.inr (by simp)), ?_, hid, ?_⟩
                  · show src.page_number = (pageRecordOf book_id page).page_number
                    simpa [pageRecordOf] using hsrcnum
                  · show b.page_id = (pageRecordOf book_id page).id
                    simpa [pageRecordOf] using hpid
              · intro a ha
                rcases List.mem_append.1 ha with h1 | h1
                · rcases hc5 a h1 with ⟨src, hsrc, p, hpmem, hnum, hid, hpid⟩
                  exact ⟨src, hsrc, p, List.mem_append.2 (Or.inl hpmem), hnum, hid, hpid⟩
                · rcases map_assets_go_prov env book_id
                      (pageIdOf book_id page.page_number) _ _ _ hma a h1
                    with ⟨src, hsrc, hid⟩
                  have hpid := map_assets_go_spec env book_id
                    (pageIdOf book_id page.page_number) _ _ _ hma a h1
                  have hsrcpb : src ∈ pb.assets := List.mem_of_mem_filter hsrc
                  have hsrcnum : src.page_number = page.page_number := by
                    have := List.of_mem_filter hsrc
                    simpa using this
                  refine ⟨src, hsrcpb, pageRecordOf book_id page,
                    List.mem_append.2 (Or.inr (by simp)), ?_, hid, ?_⟩
                  · show src.page_number = (pageRecordOf book_id page).page_number
                    simpa [pageRecordOf] using hsrcnum
                  · show a.page_id = (pageRecordOf book_id page).id
                    simpa [pageRecordOf] using hpid
            split
            · split
              · refine ⟨flushEvents (s.batch_pages ++ [pageRecordOf book_id page])
                  (s.batch_blocks ++ (map_blocks book_id (pageIdOf book_id page.page_number)
                    (pb.blocks.filter (fun b => b.page_number == page.page_number)) smap).1)
                  (s.batch_assets ++ asset_records)
                  page.page_number (pause s.checks), ?_, ?_⟩
                · simp [flushBatch, IngestResult.events, flushEvents]
                · exact Grouped.grp _ _ _ page.page_number (pause s.checks) [] hinv2 Grouped.nil
              · rcases ih (flushBatch job_id pause _ page.page_number).1 hrest
                    (by exact groupSpec_nil book_id pb resume) with ⟨ext, hev, hgr⟩
                refine ⟨flushEvents (s.batch_pages ++ [pageRecordOf book_id page])
                  (s.batch_blocks ++ (map_blocks book_id (pageIdOf book_id page.page_number)
                    (pb.blocks.filter (fun b => b.page_number == page.page_number)) smap).1)
                  (s.batch_assets ++ asset_records)
                  page.page_number (pause s.checks) ++ ext, ?_, ?_⟩
                · rw [hev]
                  simp [flushBatch, flushEvents]
                · simpa [flushEvents] using Grouped.grp _ _ _ page.page_number (pause s.checks) ext hinv2 hgr
            · exact ih _ hrest hinv2

theorem mem_insertByKey {α : Type} (key : α → Nat) (y x : α) :
    ∀ l : List α, x ∈ insertByKey key y l ↔ x = y ∨ x ∈ l := by
  intro l
  induction l with
  | nil => simp [insertByKey]
  | cons z zs ih =>
      unfold insertByKey
      by_cases h : key z < key y
      · simp only [h, if_true, List.mem_cons, ih]
        tauto
      · simp only [h, if_false, List.mem_cons]

theorem mem_sortByKey {α : Type} (key : α → Nat) :
    ∀ (l : List α) (x : α), x ∈ sortByKey key l ↔ x ∈ l := by
  intro l
  induction l with
  | nil => intro x; simp [sortByKey]
  | cons z zs ih =>
      intro x
      unfold sortByKey
      rw [mem_insertByKey, ih, List.mem_cons]

/-- The events of one run of `_ingest_parsed_book`: an optional leading
sections upsert followed by whole flush groups satisfying `GroupSpec`. -/
theorem ingest_parsed_book_grouped (env : Env) (B : Nat) (pause : Nat → Bool)
    (st : RepoState) (job_id book_id : String) (pb : ParsedBook) (resume : Nat) :
    ∃ pre body,
      (ingest_parsed_book env B pause st job_id book_id pb resume).events = pre ++ body
      ∧ ((pre = [] ∧ (map_sections book_id
            (sortByKey (fun ps => ps.order_index) pb.sections)).1 = [])
        ∨ (pre = [Event.upsertSectionsEv
            (map_sections book_id (sortByKey (fun ps => ps.order_index) pb.sections)).1]
          ∧ (map_sections book_id
            (sortByKey (fun ps => ps.order_index) pb.sections)).1 ≠ []))
      ∧ Grouped (fun ps bs as_ _ => GroupSpec book_id pb resume ps bs as_) body := by
  unfold ingest_parsed_book
  have hpages : ∀ p ∈ sortByKey (fun p => p.page_number) pb.pages, p ∈ pb.pages :=
    fun p hp => (mem_sortByKey _ _ _).1 hp
  by_cases hem : (map_sections book_id
      (sortByKey (fun ps => ps.order_index) pb.sections)).1.isEmpty
  · simp only [hem, if_true]
    rcases ingest_loop_grouped env B pause job_id book_id pb resume _ _
      ⟨st, [], [], [], [], resume, 0⟩ hpages (groupSpec_nil book_id pb resume)
      with ⟨ext, hev, hgr⟩
    exact ⟨[], ext, by simpa using hev, Or.inl ⟨rfl, List.isEmpty_iff.1 hem⟩, hgr⟩
  · simp only [hem, if_false]
    rcases ingest_loop_grouped env B pause job_id book_id pb resume _ _
      ⟨upsert_sections st (map_sections book_id
          (sortByKey (fun ps => ps.order_index) pb.sections)).1,
        [Event.upsertSectionsEv (map_sections book_id
          (sortByKey (fun ps => ps.order_index) pb.sections)).1],
        [], [], [], resume, 0⟩ hpages (groupSpec_nil book_id pb resume)
      with ⟨ext, hev, hgr⟩
    refine ⟨_, ext, hev, Or.inr ⟨rfl, ?_⟩, hgr⟩
    intro hc
    rw [List.isEmpty_iff] at hem
    exact hem hc

/-- C6: within one ingestion run, the section records (all of them — one
record per parsed section) are upserted exactly once, as the very first
repository event, before every page, block and asset upsert; when the book
has no sections, no sections upsert happens at all. -/
theorem ingest_sections_upserted_once_first (env : Env) (B : Nat)
    (pause : Nat → Bool) (st : RepoState) (job_id book_id : String)
    (pb : ParsedBook) (resume : Nat) :
    ((map_sections book_id (sortByKey (fun ps => ps.order_index) pb.sections)).1 ≠ [] →
      ∃ rest, (ingest_parsed_book env B pause st job_id book_id pb resume).events
          = Event.upsertSectionsEv (map_sections book_id
              (sortByKey (fun ps => ps.order_index) pb.sections)).1 :: rest
        ∧ ∀ e ∈ rest, e.isSectionsEv = false)
    ∧ ((map_sections book_id (sortByKey (fun ps => ps.order_index) pb.sections)).1 = [] →
      ∀ e ∈ (ingest_parsed_book env B pause st job_id book_id pb resume).events,
        e.isSectionsEv = false)
    ∧ (map_sections book_id (sortByKey (fun ps => ps.order_index) pb.sections)).1.length
        = pb.sections.length := by
  rcases ingest_parsed_book_grouped env B pause st job_id book_id pb resume
    with ⟨pre, body, hev, hpre, hgr⟩
  refine ⟨?_, ?_, ?_⟩
  · intro hne
    rcases hpre with ⟨hp, hnl⟩ | ⟨hp, _⟩
    · exact absurd hnl hne
    · subst hp
      exact ⟨body, by simpa using hev, grouped_no_sections hgr⟩
  · intro hnil e he
    rcases hpre with ⟨hp, _⟩ | ⟨hp, hne⟩
    · subst hp
      rw [hev] at he
      exact grouped_no_sections hgr e (by simpa using he)
    · exact absurd hnil hne
  · show (map_sections_go book_id _ []).1.length = _
    rw [map_sections_go_length, sortByKey_length]

theorem ingest_sections_first_witness :
    ∃ rest, (ingest_parsed_book envFix 2 (fun _ => false) stFix "job-1" "book-1"
        pbFix 0).events
      = Event.upsertSectionsEv (map_sections "book-1"
          (sortByKey (fun ps => ps.order_index) pbFix.sections)).1 :: rest
      ∧ ∀ e ∈ rest, e.isSectionsEv = false :=
  (ingest_sections_upserted_once_first envFix 2 (fun _ => false) stFix
    "job-1" "book-1" pbFix 0).1 (by decide)

/-- C9: every block or asset record upserted by a run references (via
`page_id`) a page record upserted in the same flush; every flushed page is a
parsed page above the resume checkpoint; every flushed block (resp. asset)
derives from a parsed block (resp. asset) of such a page; and (for distinct
source ids) a parsed block or asset whose page number is at or below the
checkpoint, or matches no parsed page, is never written in that run. -/
theorem ingest_orphan_blocks_dropped (env : Env) (B : Nat) (pause : Nat → Bool)
    (st : RepoState) (job_id book_id : String) (pb : ParsedBook) (resume : Nat) :
    (∃ pre body,
      (ingest_parsed_book env B pause st job_id book_id pb resume).events = pre ++ body
      ∧ (pre = [] ∨ pre = [Event.upsertSectionsEv
          (map_sections book_id (sortByKey (fun ps => ps.order_index) pb.sections)).1])
      ∧ Grouped (fun ps bs as_ _ => GroupSpec book_id pb resume ps bs as_) body)
    ∧ ((pb.blocks.map (fun b => b.id)).Nodup →
      ∀ src ∈ pb.blocks,
        (src.page_number ≤ resume
          ∨ src.page_number ∉ pb.pages.map (fun q => q.page_number)) →
        ∀ bs ∈ blockBatchesOf
          (ingest_parsed_book env B pause st job_id book_id pb resume).events,
        ∀ r ∈ bs, r.id ≠ blockIdOf book_id src.id)
    ∧ ((pb.assets.map (fun a => a.id)).Nodup →
      ∀ src ∈ pb.assets,
        (src.page_number ≤ resume
          ∨ src.page_number ∉ pb.pages.map (fun q => q.page_number)) →
        ∀ as2 ∈ assetBatchesOf
          (ingest_parsed_book env B pause st job_id book_id pb resume).events,
        ∀ r ∈ as2, r.id ≠ assetIdOf book_id src.id) := by
  rcases ingest_parsed_book_grouped env B pause st job_id book_id pb resume
    with ⟨pre, body, hev, hpre, hgr⟩
  have hpre2 : pre = [] ∨ pre = [Event.upsertSectionsEv
      (map_sections book_id (sortByKey (fun ps => ps.order_index) pb.sections)).1] := by
    rcases hpre with ⟨hp, _⟩ | ⟨hp, _⟩
    · exact Or.inl hp
    · exact Or.inr hp
  refine ⟨⟨pre, body, hev, hpre2, hgr⟩, ?_, ?_⟩
  · intro hnodup src hsrc hbad bs hbs r hr hid
    have hbs2 : bs ∈ blockBatchesOf body := by
      rw [hev] at hbs
      unfold blockBatchesOf at hbs ⊢
      rw [List.filterMap_append] at hbs
      rcases List.mem_append.1 hbs with h1 | h1
      · exfalso
        rcases hpre2 with h | h <;> subst h <;> simp at h1
      · exact h1
    rcases grouped_blockBatches hgr bs hbs2 with ⟨ps, as_, n, hP⟩
    rcases hP.2.2.2.1 r hr with ⟨src2, hsrc2, p, hp, hnum, hid2, hpid⟩
    have hideq : src2.id = src.id := blockIdOf_inj (hid ▸ hid2.symm)
    have hsrceq : src2 = src :=
      List.inj_on_of_nodup_map hnodup hsrc2 hsrc hideq
    subst hsrceq
    rcases hP.2.2.1 p hp with ⟨hlt, hmemnum⟩
    rcases hbad with hbad | hbad
    · rw [hnum] at hbad
      omega
    · rw [hnum] at hbad
      exact hbad hmemnum
  · intro hnodup src hsrc hbad as2 has2 r hr hid
    have has2' : as2 ∈ assetBatchesOf body := by
      rw [hev] at has2
      unfold assetBatchesOf at has2 ⊢
      rw [List.filterMap_append] at has2
      rcases List.mem_append.1 has2 with h1 | h1
      · exfalso
        rcases hpre2 with h | h <;> subst h <;> simp at h1
      · exact h1
    rcases grouped_assetBatches hgr as2 has2' with ⟨ps, bs, n, hP⟩
    rcases hP.2.2.2.2 r hr with ⟨src2, hsrc2, p, hp, hnum, hid2, hpid⟩
    have hideq : src2.id = src.id := assetIdOf_inj (hid ▸ hid2.symm)
    have hsrceq : src2 = src :=
      List.inj_on_of_nodup_map hnodup hsrc2 hsrc hideq
    subst hsrceq
    rcases hP.2.2.1 p hp with ⟨hlt, hmemnum⟩
    rcases hbad with hbad | hbad
    · rw [hnum] at hbad
      omega
    · rw [hnum] at hbad
      exact hbad hmemnum

theorem ingest_orphan_blocks_witness :
    (∀ bs ∈ blockBatchesOf (ingest_parsed_book envFix 2 (fun _ => false) stFix
        "job-1" "book-1" pbFixOrphan 0).events,
      ∀ r ∈ bs, r.id ≠ blockIdOf "book-1" blkOrphanFix.id)
    ∧ (∀ as2 ∈ assetBatchesOf (ingest_parsed_book envFix 2 (fun _ => false) stFix
        "job-1" "book-1" pbFixOrphan 0).events,
      ∀ r ∈ as2, r.id ≠ assetIdOf "book-1" astOrphanFix.id) :=
  ⟨(ingest_orphan_blocks_dropped envFix 2 (fun _ => false) stFix "job-1" "book-1"
      pbFixOrphan 0).2.1 (by decide) blkOrphanFix (by decide) (by decide),
   (ingest_orphan_blocks_dropped envFix 2 (fun _ => false) stFix "job-1" "book-1"
      pbFixOrphan 0).2.2 (by decide) astOrphanFix (by decide) (by decide)⟩

/-! ## Lemmas: the chunked normal form of the page loop -/

theorem flushBatch_eq (jid : String) (pause : Nat → Bool) (s : IngestSt) (pn : Nat) :
    flushBatch jid pause s pn
      = (⟨applyFlush jid s.st s.batch_pages s.batch_blocks s.batch_assets pn,
          s.trace ++ flushEvents s.batch_pages s.batch_blocks s.batch_assets pn
            (pause s.checks),
          [], [], [], pn, s.checks + 1⟩, pause s.checks) := rfl

theorem processPage_ok {env : Env} {book_id : String} {pb : ParsedBook}
    {smap : Store String} {page : ParsedPage}
    {out : PageRecord × List BlockRecord × List AssetRecord}
    (h : processPage env book_id pb smap page = .ok out) :
    out.1 = pageRecordOf book_id page
    ∧ out.2.1 = (map_blocks book_id (pageIdOf book_id page.page_number)
        (pb.blocks.filter (fun b => b.page_number == page.page_number)) smap).1
    ∧ map_assets_go env book_id (pageIdOf book_id page.page_number)
        (map_blocks book_id (pageIdOf book_id page.page_number)
          (pb.blocks.filter (fun b => b.page_number == page.page_number)) smap).2
        (pb.assets.filter (fun a => a.page_number == page.page_number)) = .ok out.2.2 := by
  simp only [processPage] at h
  split at h
  · cases h
  · rename_i arecs hma
    cases h
    exact ⟨rfl, rfl, hma⟩

theorem processPage_of_assets_ok {env : Env} {book_id : String} {pb : ParsedBook}
    {smap : Store String} {page : ParsedPage} {arecs : List AssetRecord}
    (hma : map_assets_go env book_id (pageIdOf book_id page.page_number)
        (map_blocks book_id (pageIdOf book_id page.page_number)
          (pb.blocks.filter (fun b => b.page_number == page.page_number)) smap).2
        (pb.assets.filter (fun a => a.page_number == page.page_number)) = .ok arecs) :
    processPage env book_id pb smap page
      = .ok (pageRecordOf book_id page,
          (map_blocks book_id (pageIdOf book_id page.page_number)
            (pb.blocks.filter (fun b => b.page_number == page.page_number)) smap).1,
          arecs) := by
  simp only [processPage]
  rw [hma]

theorem processPage_of_assets_err {env : Env} {book_id : String} {pb : ParsedBook}
    {smap : Store String} {page : ParsedPage} {e : String}
    (hma : map_assets_go env book_id (pageIdOf book_id page.page_number)
        (map_blocks book_id (pageIdOf book_id page.page_number)
          (pb.blocks.filter (fun b => b.page_number == page.page_number)) smap).2
        (pb.assets.filter (fun a => a.page_number == page.page_number)) = .error e) :
    processPage env book_id pb smap page = .error e := by
  simp only [processPage]
  rw [hma]

theorem processChunk_pages {env : Env} {bid : String} {pb : ParsedBook}
    {smap : Store String} :
    ∀ {chunk : List ParsedPage} {out},
      processChunk env bid pb smap chunk = .ok out →
      out.1 = chunk.map (pageRecordOf bid) := by
  intro chunk
  induction chunk with
  | nil =>
      intro out h
      cases h
      rfl
  | cons p rest ih =>
      intro out h
      unfold processChunk at h
      split at h
      · cases h
      · rename_i pout hpp
        split at h
        · cases h
        · rename_i outs hrec
          cases h
          show pout.1 :: outs.1 = _
          rw [(processPage_ok hpp).1, ih hrec]
          rfl

theorem lastPageNumber_of_pages {bid : String} {chunk : List ParsedPage}
    {out : List PageRecord × List BlockRecord × List AssetRecord}
    (h : out.1 = chunk.map (pageRecordOf bid)) :
    ((out.1.getLast?).map (fun p => p.page_number)).getD 0 = lastPageNumber chunk := by
  rw [h]
  unfold lastPageNumber
  rw [List.getLast?_map]
  cases chunk.getLast? with
  | none => rfl
  | some p => rfl

/-- An uncaught error while processing a chunk aborts the run with the
repository state and trace as they were at the chunk's start. -/
theorem ingest_loop_chunk_err (env : Env) (B : Nat) (pause : Nat → Bool)
    (jid bid : String) (pb : ParsedBook) (resume : Nat) (smap : Store String) :
    ∀ (chunk rest : List ParsedPage) (s : IngestSt) (e : String),
      (∀ p ∈ chunk, resume < p.page_number) →
      s.batch_pages.length + chunk.length ≤ chunkSize B →
      processChunk env bid pb smap chunk = .error e →
      ingest_loop env B pause jid bid pb resume smap (chunk ++ rest) s
        = .err s.st s.trace e := by
  intro chunk
  induction chunk with
  | nil =>
      intro rest s e hall hlen hpc
      cases hpc
  | cons p chunk2 ih =>
      intro rest s e hall hlen hpc
      have hp : resume < p.page_number := hall p (List.mem_cons_self _ _)
      have hskip : ¬ p.page_number ≤ resume := Nat.not_le.2 hp
      show ingest_loop env B pause jid bid pb resume smap (p :: (chunk2 ++ rest)) s = _
      unfold ingest_loop
      simp only [hskip, if_false]
      cases hma : map_assets_go env bid (pageIdOf bid p.page_number)
          (map_blocks bid (pageIdOf bid p.page_number)
            (pb.blocks.filter (fun b => b.page_number == p.page_number)) smap).2
          (pb.assets.filter (fun a => a.page_number == p.page_number)) with
      | error e0 =>
          simp only [hma]
          have hpp := processPage_of_assets_err hma
          unfold processChunk at hpc
          rw [hpp] at hpc
          injection hpc with he
          subst he
          rfl
      | ok arecs =>
          simp only [hma]
          have hpp := processPage_of_assets_ok hma
          unfold processChunk at hpc
          rw [hpp] at hpc
          cases hrec : processChunk env bid pb smap chunk2 with
          | ok outs =>
              rw [hrec] at hpc
              cases hpc
          | error e2 =>
              rw [hrec] at hpc
              injection hpc with he
              subst he
              cases chunk2 with
              | nil => cases hrec
              | cons q chunk3 =>
                  have hnotfull : ¬ (B ≤ (s.batch_pages ++ [pageRecordOf bid p]).length) := by
                    have h1 := hlen
                    simp only [List.length_cons] at h1
                    unfold chunkSize at h1
                    simp only [List.length_append, List.length_cons, List.length_nil]
                    omega
                  simp only [hnotfull, if_false]
                  exact ih rest _ e2
                    (fun q2 hq2 => hall q2 (List.mem_cons_of_mem _ hq2))
                    (by
                      simp only [List.length_append, List.length_cons, List.length_nil]
                      simp only [List.length_cons] at hlen
                      omega)
                    hrec

/-- Processing a full chunk (batch reaching the flush threshold exactly at
its last page) flushes once and either stops on a pause or continues with
the remaining pages and empty batches. -/
theorem ingest_loop_chunk_ok (env : Env) (B : Nat) (pause : Nat → Bool)
    (jid bid : String) (pb : ParsedBook) (resume : Nat) (smap : Store String) :
    ∀ (chunk rest : List ParsedPage) (s : IngestSt)
      (out : List PageRecord × List BlockRecord × List AssetRecord),
      (∀ p ∈ chunk, resume < p.page_number) →
      s.batch_pages.length + chunk.length = chunkSize B →
      chunk ≠ [] →
      processChunk env bid pb smap chunk = .ok out →
      ingest_loop env B pause jid bid pb resume smap (chunk ++ rest) s
        = (if (flushedState jid pause s out (lastPageNumber chunk)).2 then
            IngestResult.done (flushedState jid pause s out (lastPageNumber chunk)).1.st
              (flushedState jid pause s out (lastPageNumber chunk)).1.trace
          else ingest_loop env B pause jid bid pb resume smap rest
            (flushedState jid pause s out (lastPageNumber chunk)).1) := by
  intro chunk
  induction chunk with
  | nil =>
      intro rest s out hall hlen hne hpc
      exact absurd rfl hne
  | cons p chunk2 ih =>
      intro rest s out hall hlen hne hpc
      have hp : resume < p.page_number := hall p (List.mem_cons_self _ _)
      have hskip : ¬ p.page_number ≤ resume := Nat.not_le.2 hp
      show ingest_loop env B pause jid bid pb resume smap (p :: (chunk2 ++ rest)) s = _
      unfold ingest_loop
      simp only [hskip, if_false]
      cases hma : map_assets_go env bid (pageIdOf bid p.page_number)
          (map_blocks bid (pageIdOf bid p.page_number)
            (pb.blocks.filter (fun b => b.page_number == p.page_number)) smap).2
          (pb.assets.filter (fun a => a.page_number == p.page_number)) with
      | error e0 =>
          exfalso
          have hpp := processPage_of_assets_err hma
          unfold processChunk at hpc
          rw [hpp] at hpc
          cases hpc
      | ok arecs =>
          simp only [hma]
          have hpp := processPage_of_assets_ok hma
          unfold processChunk at hpc
          rw [hpp] at hpc
          cases hrec : processChunk env bid pb smap chunk2 with
          | error e2 =>
              exfalso
              rw [hrec] at hpc
              cases hpc
          | ok outs =>
              rw [hrec] at hpc
              injection hpc with h
              subst h
              cases chunk2 with
              | nil =>
                  unfold processChunk at hrec
                  injection hrec with h2
                  subst h2
                  have hfull : B ≤ (s.batch_pages ++ [pageRecordOf bid p]).length := by
                    simp only [List.length_append, List.length_cons, List.length_nil]
                    simp only [List.length_cons, List.length_nil] at hlen
                    unfold chunkSize at hlen
                    omega
                  simp only [hfull, if_true]
                  have hfs : flushedState jid pause s
                      ((pageRecordOf bid p :: [],
                        (map_blocks bid (pageIdOf bid p.page_number)
                          (pb.blocks.filter (fun b => b.page_number == p.page_number))
                            smap).1 ++ [], arecs ++ []))
                      (lastPageNumber [p])
                      = flushBatch jid pause
                        { s with
                          batch_pages := s.batch_pages ++ [pageRecordOf bid p]
                          batch_blocks := s.batch_blocks ++
                            (map_blocks bid (pageIdOf bid p.page_number)
                              (pb.blocks.filter
                                (fun b => b.page_number == p.page_number)) smap).1
                          batch_assets := s.batch_assets ++ arecs }
                        p.page_number := by
                    unfold flushedState
                    simp [lastPageNumber]
                  rw [hfs]
                  simp only [List.nil_append]
                  split
                  · rfl
                  · cases rest <;> rfl
              | cons q chunk3 =>
                  have hnotfull : ¬ (B ≤ (s.batch_pages ++ [pageRecordOf bid p]).length) := by
                    simp only [List.length_append, List.length_cons, List.length_nil]
                    simp only [List.length_cons] at hlen
                    unfold chunkSize at hlen
                    omega
                  simp only [hnotfull, if_false]
                  have hih := ih rest
                    { s with
                      batch_pages := s.batch_pages ++ [pageRecordOf bid p]
                      batch_blocks := s.batch_blocks ++
                        (map_blocks bid (pageIdOf bid p.page_number)
                          (pb.blocks.filter (fun b => b.page_number == p.page_number))
                            smap).1
                      batch_assets := s.batch_assets ++ arecs }
                    outs
                    (fun q2 hq2 => hall q2 (List.mem_cons_of_mem _ hq2))
                    (by
                      simp only [List.length_append, List.length_cons, List.length_nil]
                      simp only [List.length_cons] at hlen
                      omega)
                    (by intro hc; cases hc)
                    hrec
                  rw [hih]
                  have hfs : flushedState jid pause
                      { s with
                        batch_pages := s.batch_pages ++ [pageRecordOf bid p]
                        batch_blocks := s.batch_blocks ++
                          (map_blocks bid (pageIdOf bid p.page_number)
                            (pb.blocks.filter
                              (fun b => b.page_number == p.page_number)) smap).1
                        batch_assets := s.batch_assets ++ arecs }
                      outs (lastPageNumber (q :: chunk3))
                      = flushedState jid pause s
                        ((pageRecordOf bid p :: outs.1,
                          (map_blocks bid (pageIdOf bid p.page_number)
                            (pb.blocks.filter
                              (fun b => b.page_number == p.page_number)) smap).1
                            ++ outs.2.1, arecs ++ outs.2.2))
                        (lastPageNumber (p :: q :: chunk3)) := by
                    unfold flushedState
                    have hlast : lastPageNumber (p :: q :: chunk3)
                        = lastPageNumber (q :: chunk3) := by
                      unfold lastPageNumber
                      rw [List.getLast?_cons_cons]
                    rw [hlast]
                    simp [List.append_assoc]
                  rw [hfs]
                  split
                  · rfl
                  · cases rest <;> rfl

/-- Processing a trailing chunk that never reaches the flush threshold
accumulates everything and ends with the loop's final partial flush. -/
theorem ingest_loop_partial_ok (env : Env) (B : Nat) (pause : Nat → Bool)
    (jid bid : String) (pb : ParsedBook) (resume : Nat) (smap : Store String) :
    ∀ (chunk : List ParsedPage) (s : IngestSt)
      (out : List PageRecord × List BlockRecord × List AssetRecord),
      (∀ p ∈ chunk, resume < p.page_number) →
      s.batch_pages.length + chunk.length < chunkSize B →
      processChunk env bid pb smap chunk = .ok out →
      ingest_loop env B pause jid bid pb resume smap chunk s
        = finalFlushResult jid pause s out := by
  intro chunk
  induction chunk with
  | nil =>
      intro s out hall hlt hpc
      injection hpc with h
      subst h
      obtain ⟨sst, str, sbp, sbb, sba, sl, sc⟩ := s
      unfold ingest_loop finalFlushResult flushedState
      simp only [List.append_nil]
  | cons p chunk2 ih =>
      intro s out hall hlt hpc
      have hp : resume < p.page_number := hall p (List.mem_cons_self _ _)
      have hskip : ¬ p.page_number ≤ resume := Nat.not_le.2 hp
      show ingest_loop env B pause jid bid pb resume smap (p :: chunk2) s = _
      unfold ingest_loop
      simp only [hskip, if_false]
      cases hma : map_assets_go env bid (pageIdOf bid p.page_number)
          (map_blocks bid (pageIdOf bid p.page_number)
            (pb.blocks.filter (fun b => b.page_number == p.page_number)) smap).2
          (pb.assets.filter (fun a => a.page_number == p.page_number)) with
      | error e0 =>
          exfalso
          have hpp := processPage_of_assets_err hma
          unfold processChunk at hpc
          rw [hpp] at hpc
          cases hpc
      | ok arecs =>
          simp only [hma]
          have hpp := processPage_of_assets_ok hma
          unfold processChunk at hpc
          rw [hpp] at hpc
          cases hrec : processChunk env bid pb smap chunk2 with
          | error e2 =>
              exfalso
              rw [hrec] at hpc
              cases hpc
          | ok outs =>
              rw [hrec] at hpc
              injection hpc with h
              subst h
              have hnotfull : ¬ (B ≤ (s.batch_pages ++ [pageRecordOf bid p]).length) := by
                simp only [List.length_append, List.length_cons, List.length_nil]
                simp only [List.length_cons] at hlt
                unfold chunkSize at hlt
                omega
              simp only [hnotfull, if_false]
              rw [ih _ outs (fun q hq => hall q (List.mem_cons_of_mem _ hq))
                (by
                  simp only [List.length_append, List.length_cons, List.length_nil]
                  simp only [List.length_cons] at hlt
                  omega)
                hrec]
              unfold finalFlushResult flushedState
              simp [List.append_assoc]

/-- The page loop, started with empty batches on pages all above the
checkpoint, is exactly the chunked executor. -/
theorem ingest_loop_eq_chunkedIngest (env : Env) (B : Nat) (pause : Nat → Bool)
    (jid bid : String) (pb : ParsedBook) (resume : Nat) (smap : Store String) :
    ∀ (n : Nat) (todo : List ParsedPage), todo.length ≤ n →
      (∀ p ∈ todo, resume < p.page_number) →
      ∀ (k : Nat) (st : RepoState) (tr : List Event) (last : Nat),
      ingest_loop env B pause jid bid pb resume smap todo ⟨st, tr, [], [], [], last, k⟩
        = chunkedIngest env B pause jid bid pb smap todo k st tr := by
  intro n
  induction n with
  | zero =>
      intro todo hlen hall k st tr last
      have htodo : todo = [] := List.length_eq_zero.1 (Nat.le_zero.1 hlen)
      subst htodo
      rw [chunkedIngest]
      simp [ingest_loop]
  | succ m ih =>
      intro todo hlen hall k st tr last
      cases todo with
      | nil =>
          rw [chunkedIngest]
          simp [ingest_loop]
      | cons p rest0 =>
          have hcs1 : 1 ≤ chunkSize B := Nat.le_max_right _ _
          by_cases hfull : chunkSize B ≤ (p :: rest0).length
          · have hchunklen : ((p :: rest0).take (chunkSize B)).length = chunkSize B := by
              rw [List.length_take]
              omega
            have hchne : (p :: rest0).take (chunkSize B) ≠ [] := by
              intro hc
              rw [hc] at hchunklen
              simp at hchunklen
              omega
            have hsplit : (p :: rest0).take (chunkSize B)
                ++ (p :: rest0).drop (chunkSize B) = p :: rest0 :=
              List.take_append_drop _ _
            have halltake : ∀ q ∈ (p :: rest0).take (chunkSize B), resume < q.page_number :=
              fun q hq => hall q (List.take_subset _ _ hq)
            cases hpc : processChunk env bid pb smap ((p :: rest0).take (chunkSize B)) with
            | error e =>
                have hl := ingest_loop_chunk_err env B pause jid bid pb resume smap
                  ((p :: rest0).take (chunkSize B)) ((p :: rest0).drop (chunkSize B))
                  ⟨st, tr, [], [], [], last, k⟩ e halltake
                  (by simp [hchunklen]) hpc
                rw [hsplit] at hl
                rw [hl]
                rw [chunkedIngest]
                rw [hpc]
            | ok out =>
                have hl := ingest_loop_chunk_ok env B pause jid bid pb resume smap
                  ((p :: rest0).take (chunkSize B)) ((p :: rest0).drop (chunkSize B))
                  ⟨st, tr, [], [], [], last, k⟩ out halltake
                  (by simp [hchunklen]) hchne hpc
                rw [hsplit] at hl
                rw [hl]
                rw [chunkedIngest]
                rw [hpc]
                simp only [flushedState, flushBatch_eq, List.nil_append]
                by_cases hpk : pause k
                · simp only [hpk, if_true]
                · simp only [hpk, if_false]
                  have hdroplen : ((p :: rest0).drop (chunkSize B)).length ≤ m := by
                    rw [List.length_drop]
                    simp only [List.length_cons] at hlen ⊢
                    omega
                  have halldrop : ∀ q ∈ (p :: rest0).drop (chunkSize B),
                      resume < q.page_number :=
                    fun q hq => hall q (List.drop_subset _ _ hq)
                  exact ih _ hdroplen halldrop (k + 1) _ _ _
          · have hlt : (p :: rest0).length < chunkSize B := Nat.lt_of_not_le hfull
            have hchunkeq : (p :: rest0).take (chunkSize B) = p :: rest0 :=
              List.take_of_length_le (Nat.le_of_lt hlt)
            cases hpc : processChunk env bid pb smap (p :: rest0) with
            | error e =>
                have hl := ingest_loop_chunk_err env B pause jid bid pb resume smap
                  (p :: rest0) [] ⟨st, tr, [], [], [], last, k⟩ e hall
                  (by simpa using Nat.le_of_lt hlt) hpc
                rw [List.append_nil] at hl
                rw [hl]
                rw [chunkedIngest]
                rw [hchunkeq, hpc]
            | ok out =>
                have hl := ingest_loop_partial_ok env B pause jid bid pb resume smap
                  (p :: rest0) ⟨st, tr, [], [], [], last, k⟩ out hall
                  (by simpa using hlt) hpc
                rw [hl]
                have hpages := processChunk_pages hpc
                have hone : out.1 ≠ [] := by
                  rw [hpages]
                  simp
                have hlast : ((out.1.getLast?).map (fun q => q.page_number)).getD 0
                    = lastPageNumber (p :: rest0) := lastPageNumber_of_pages hpages
                have hdrop : (p :: rest0).drop (chunkSize B) = [] :=
                  List.drop_eq_nil_of_le (Nat.le_of_lt hlt)
                rw [chunkedIngest]
                rw [hchunkeq, hpc]
                unfold finalFlushResult
                have hbe : ((⟨st, tr, [], [], [], last, k⟩ : IngestSt).batch_pages
                    ++ out.1).isEmpty = false := by
                  simp only [List.nil_append]
                  rw [List.isEmpty_eq_false]
                  exact hone
                rw [hbe]
                simp only [List.nil_append, hlast]
                simp only [flushedState, flushBatch_eq, List.nil_append]
                rw [hdrop]
                by_cases hpk : pause k
                · simp [hpk]
                · simp only [hpk]
                  simp
                  rw [chunkedIngest]

/-! ## Lemmas: a healthy artifact store makes chunk processing total -/

theorem map_assets_go_ok_of_henv {env : Env}
    (henv : ∀ b a d, (env.write_asset_image b a d).isOk = true)
    (bid pid : String) (owner : Store String) :
    ∀ assets, ∃ recs, map_assets_go env bid pid owner assets = .ok recs := by
  intro assets
  induction assets with
  | nil => exact ⟨[], rfl⟩
  | cons a rest ih =>
      rcases ih with ⟨recs, hrecs⟩
      simp only [map_assets_go]
      cases hfp : (if bytesTruthy a.image_bytes then
          env.write_asset_image bid (assetIdOf bid a.id) (a.image_bytes.getD [])
        else if strTruthy a.image_path then Except.ok (a.image_path.getD "")
        else Except.ok "") with
      | error e =>
          exfalso
          by_cases hbytes : bytesTruthy a.image_bytes
          · rw [if_pos hbytes] at hfp
            have h2 := henv bid (assetIdOf bid a.id) (a.image_bytes.getD [])
            rw [hfp] at h2
            simp [Except.isOk, Except.toBool] at h2
          · rw [if_neg hbytes] at hfp
            by_cases hpath : strTruthy a.image_path
            · rw [if_pos hpath] at hfp
              cases hfp
            · rw [if_neg hpath] at hfp
              cases hfp
      | ok path =>
          rw [hrecs]
          exact ⟨_, rfl⟩

theorem processPage_ok_of_henv {env : Env}
    (henv : ∀ b a d, (env.write_asset_image b a d).isOk = true)
    (bid : String) (pb : ParsedBook) (smap : Store String) (page : ParsedPage) :
    ∃ out, processPage env bid pb smap page = .ok out := by
  rcases map_assets_go_ok_of_henv henv bid (pageIdOf bid page.page_number)
    (map_blocks bid (pageIdOf bid page.page_number)
      (pb.blocks.filter (fun b => b.page_number == page.page_number)) smap).2
    (pb.assets.filter (fun a => a.page_number == page.page_number)) with ⟨recs, hrecs⟩
  exact ⟨_, processPage_of_assets_ok hrecs⟩

theorem processChunk_ok_of_henv {env : Env}
    (henv : ∀ b a d, (env.write_asset_image b a d).isOk = true)
    (bid : String) (pb : ParsedBook) (smap : Store String) :
    ∀ chunk, ∃ out, processChunk env bid pb smap chunk = .ok out := by
  intro chunk
  induction chunk with
  | nil => exact ⟨_, rfl⟩
  | cons p rest ih =>
      rcases processPage_ok_of_henv henv bid pb smap p with ⟨out1, hout1⟩
      rcases ih with ⟨outs, houts⟩
      refine ⟨(out1.1 :: outs.1, out1.2.1 ++ outs.2.1, out1.2.2 ++ outs.2.2), ?_⟩
      unfold processChunk
      rw [hout1, houts]

/-! ## Lemmas: the stable sort -/

theorem pairwise_insertByKey {α : Type} (key : α → Nat) (x : α) :
    ∀ {l : List α}, List.Pairwise (fun a b => key a ≤ key b) l →
      List.Pairwise (fun a b => key a ≤ key b) (insertByKey key x l) := by
  intro l
  induction l with
  | nil =>
      intro _
      simp [insertByKey]
  | cons y ys ih =>
      intro h
      rw [List.pairwise_cons] at h
      unfold insertByKey
      by_cases hlt : key y < key x
      · rw [if_pos hlt]
        rw [List.pairwise_cons]
        constructor
        · intro z hz
          rcases (mem_insertByKey key x z ys).1 hz with h1 | h1
          · subst h1
            exact Nat.le_of_lt hlt
          · exact h.1 z h1
        · exact ih h.2
      · rw [if_neg hlt]
        rw [List.pairwise_cons]
        constructor
        · intro z hz
          rcases List.mem_cons.1 hz with h1 | h1
          · subst h1
            exact Nat.le_of_not_lt hlt
          · exact Nat.le_trans (Nat.le_of_not_lt hlt) (h.1 z h1)
        · rw [List.pairwise_cons]
          exact h

theorem sortByKey_sorted {α : Type} (key : α → Nat) :
    ∀ l : List α, List.Pairwise (fun a b => key a ≤ key b) (sortByKey key l) := by
  intro l
  induction l with
  | nil => simp [sortByKey]
  | cons x xs ih =>
      unfold sortByKey
      exact pairwise_insertByKey key x ih

theorem insertByKey_perm {α : Type} (key : α → Nat) (x : α) :
    ∀ l : List α, (insertByKey key x l).Perm (x :: l) := by
  intro l
  induction l with
  | nil => simp [insertByKey]
  | cons y ys ih =>
      unfold insertByKey
      by_cases hlt : key y < key x
      · rw [if_pos hlt]
        exact (ih.cons y).trans (List.Perm.swap x y ys)
      · rw [if_neg hlt]

theorem sortByKey_perm {α : Type} (key : α → Nat) :
    ∀ l : List α, (sortByKey key l).Perm l := by
  intro l
  induction l with
  | nil => simp [sortByKey]
  | cons x xs ih =>
      unfold sortByKey
      exact (insertByKey_perm key x (sortByKey key xs)).trans (ih.cons x)

theorem sortByKey_eq_of_sorted {α : Type} (key : α → Nat) :
    ∀ l : List α, List.Pairwise (fun a b => key a ≤ key b) l → sortByKey key l = l := by
  intro l
  induction l with
  | nil => intro _; rfl
  | cons x xs ih =>
      intro h
      rw [List.pairwise_cons] at h
      unfold sortByKey
      rw [ih h.2]
      cases xs with
      | nil => rfl
      | cons y ys =>
          unfold insertByKey
          rw [if_neg (Nat.not_lt.2 (h.1 y (List.mem_cons_self _ _)))]

/-! ## Lemmas: `range'` arithmetic -/

theorem range'_take (m : Nat) : ∀ (s n : Nat),
    (List.range' s n).take m = List.range' s (min m n) := by
  induction m with
  | zero => intro s n; simp
  | succ m ih =>
      intro s n
      cases n with
      | zero => simp
      | succ n =>
          rw [List.range'_succ]
          show s :: List.take m (List.range' (s + 1) n) = _
          rw [ih]
          rw [Nat.succ_min_succ]
          rw [List.range'_succ]

theorem range'_drop (m : Nat) : ∀ (s n : Nat),
    (List.range' s n).drop m = List.range' (s + m) (n - m) := by
  induction m with
  | zero => intro s n; simp
  | succ m ih =>
      intro s n
      cases n with
      | zero => simp
      | succ n =>
          rw [List.range'_succ]
          rw [List.drop_succ_cons]
          rw [ih]
          have h1 : s + 1 + m = s + (m + 1) := by omega
          have h2 : n - m = n + 1 - (m + 1) := by omega
          rw [h1, h2]

theorem range'_getLast_getD : ∀ (n s : Nat), 0 < n →
    ((List.range' s n).getLast?).getD 0 = s + n - 1 := by
  intro n
  induction n with
  | zero => intro s h; omega
  | succ n ih =>
      intro s _
      cases n with
      | zero => simp [List.range'_succ]
      | succ n2 =>
          have h2 := ih (s + 1) (Nat.succ_pos _)
          rw [List.range'_succ] at h2
          rw [List.range'_succ, List.range'_succ, List.getLast?_cons_cons]
          rw [h2]
          omega

/-- Skipping pages at or below the checkpoint inside the loop is the same as
filtering them out up front. -/
theorem ingest_loop_filter (env : Env) (B : Nat) (pause : Nat → Bool)
    (jid bid : String) (pb : ParsedBook) (resume : Nat) (smap : Store String) :
    ∀ (pages : List ParsedPage) (s : IngestSt),
      ingest_loop env B pause jid bid pb resume smap pages s
        = ingest_loop env B pause jid bid pb resume smap
            (pages.filter (fun p => decide (resume < p.page_number))) s := by
  intro pages
  induction pages with
  | nil => intro s; rfl
  | cons page rest ih =>
      intro s
      by_cases hskip : page.page_number ≤ resume
      · have hf : (page :: rest).filter (fun p => decide (resume < p.page_number))
            = rest.filter (fun p => decide (resume < p.page_number)) := by
          rw [List.filter_cons]
          simp [Nat.not_lt.2 hskip]
        rw [hf]
        rw [ingest_loop]
        simp only [hskip, if_true]
        exact ih s
      · have hf : (page :: rest).filter (fun p => decide (resume < p.page_number))
            = page :: rest.filter (fun p => decide (resume < p.page_number)) := by
          rw [List.filter_cons]
          simp [Nat.lt_of_not_le hskip]
        rw [hf]
        rw [ingest_loop, ingest_loop]
        simp only [hskip, if_false]
        cases hma : map_assets_go env bid (pageIdOf bid page.page_number)
            (map_blocks bid (pageIdOf bid page.page_number)
              (pb.blocks.filter (fun b => b.page_number == page.page_number)) smap).2
            (pb.assets.filter (fun a => a.page_number == page.page_number)) with
        | error e => simp only [hma]
        | ok arecs =>
            simp only [hma]
            split
            · split
              · rfl
              · exact ih _
            · exact ih _

/-- `_ingest_parsed_book` is the chunked executor run on the sorted pages above
the checkpoint, after the up-front sections upsert. -/
theorem ingest_parsed_book_eq_chunked (env : Env) (B : Nat) (pause : Nat → Bool)
    (st : RepoState) (jid bid : String) (pb : ParsedBook) (resume : Nat) :
    ingest_parsed_book env B pause st jid bid pb resume
      = chunkedIngest env B pause jid bid pb
          (map_sections bid (sortByKey (fun ps => ps.order_index) pb.sections)).2
          ((sortByKey (fun p => p.page_number) pb.pages).filter
            (fun p => decide (resume < p.page_number)))
          0
          (if (map_sections bid (sortByKey (fun ps => ps.order_index) pb.sections)).1.isEmpty
            then st
            else upsert_sections st
              (map_sections bid (sortByKey (fun ps => ps.order_index) pb.sections)).1)
          (if (map_sections bid (sortByKey (fun ps => ps.order_index) pb.sections)).1.isEmpty
            then ([] : List Event)
            else [Event.upsertSectionsEv
              (map_sections bid (sortByKey (fun ps => ps.order_index) pb.sections)).1]) := by
  have hall : ∀ p ∈ (sortByKey (fun p => p.page_number) pb.pages).filter
      (fun p => decide (resume < p.page_number)), resume < p.page_number := by
    intro p hp
    have := List.of_mem_filter hp
    simpa using this
  unfold ingest_parsed_book
  by_cases hem : (map_sections bid (sortByKey (fun ps => ps.order_index) pb.sections)).1.isEmpty
  · simp only [hem, if_true]
    rw [ingest_loop_filter]
    exact ingest_loop_eq_chunkedIngest env B pause jid bid pb resume _ _ _ le_rfl hall 0 st [] resume
  · simp only [hem, if_false]
    rw [ingest_loop_filter]
    exact ingest_loop_eq_chunkedIngest env B pause jid bid pb resume _ _ _ le_rfl hall 0 _ _ resume

theorem getLast?_cons_getD {α : Type} :
    ∀ (l : List α) (x d : α), (((x :: l).getLast?).getD d) = ((l.getLast?).getD x) := by
  intro l
  induction l with
  | nil => intro x d; rfl
  | cons y ys ih =>
      intro x d
      rw [List.getLast?_cons_cons, ih y d, ih y x]

theorem checkpointsOf_flushEvents (prs : List PageRecord) (brs : List BlockRecord)
    (ars : List AssetRecord) (pn : Nat) (ans : Bool) :
    checkpointsOf (flushEvents prs brs ars pn ans) = [pn] := rfl

theorem checkpointsOf_append (tr tr' : List Event) :
    checkpointsOf (tr ++ tr') = checkpointsOf tr ++ checkpointsOf tr' :=
  List.filterMap_append _ _ _

/-- The last page number of the `chunkSize`-chunk of consecutively numbered
pages starting above `s0`. -/
theorem lastPageNumber_take_range (B : Nat) (todo : List ParsedPage) (s0 : Nat)
    (hmap : todo.map (fun p => p.page_number) = List.range' (s0+1) todo.length)
    (hne : todo ≠ []) :
    lastPageNumber (todo.take (chunkSize B))
      = s0 + min (chunkSize B) todo.length := by
  have hcs1 : 1 ≤ chunkSize B := Nat.le_max_right _ _
  have hlen1 : 1 ≤ todo.length := by
    cases todo with
    | nil => exact absurd rfl hne
    | cons a l => simp
  unfold lastPageNumber
  rw [← List.getLast?_map]
  rw [List.map_take, hmap, range'_take]
  have hpos : 0 < min (chunkSize B) todo.length := by omega
  rw [range'_getLast_getD _ _ hpos]
  omega

/-- The checkpoint values written by the chunked executor over consecutively
numbered pages form a whole-flush-count front of the expected schedule —
all of it when no pause is ever requested. -/
theorem chunkedIngest_checkpoints (env : Env) (B : Nat) (pause : Nat → Bool)
    (jid bid : String) (pb : ParsedBook) (smap : Store String)
    (henv : ∀ b a d, (env.write_asset_image b a d).isOk = true) :
    ∀ (n : Nat) (todo : List ParsedPage), todo.length ≤ n →
      ∀ (s0 k : Nat) (st : RepoState) (tr : List Event),
      todo.map (fun p => p.page_number) = List.range' (s0+1) todo.length →
      ∃ ext jj,
        (chunkedIngest env B pause jid bid pb smap todo k st tr).events = tr ++ ext
        ∧ checkpointsOf ext = (expectedCheckpoints B s0 todo.length).take jj
        ∧ ((∀ i, pause i = false) →
            checkpointsOf ext = expectedCheckpoints B s0 todo.length) := by
  intro n
  induction n with
  | zero =>
      intro todo hlen s0 k st tr hmap
      have htodo : todo = [] := List.length_eq_zero.1 (Nat.le_zero.1 hlen)
      subst htodo
      rw [chunkedIngest]
      exact ⟨[], 0, by simp [IngestResult.events], rfl,
        fun _ => by rw [List.length_nil, expectedCheckpoints]; simp [checkpointsOf]⟩
  | succ m ih =>
      intro todo hlen s0 k st tr hmap
      cases todo with
      | nil =>
          rw [chunkedIngest]
          exact ⟨[], 0, by simp [IngestResult.events], rfl,
            fun _ => by rw [List.length_nil, expectedCheckpoints]; simp [checkpointsOf]⟩
      | cons p rest0 =>
          have hcs1 : 1 ≤ chunkSize B := Nat.le_max_right _ _
          rcases processChunk_ok_of_henv henv bid pb smap
            ((p :: rest0).take (chunkSize B)) with ⟨out, hpc⟩
          have hpn : lastPageNumber ((p :: rest0).take (chunkSize B))
              = s0 + min (chunkSize B) (p :: rest0).length :=
            lastPageNumber_take_range B (p :: rest0) s0 hmap (by intro hc; cases hc)
          have hexp : expectedCheckpoints B s0 (rest0.length + 1)
              = (s0 + min (chunkSize B) (rest0.length + 1))
                :: expectedCheckpoints B (s0 + min (chunkSize B) (rest0.length + 1))
                  ((rest0.length + 1) - min (chunkSize B) (rest0.length + 1)) := by
            rw [expectedCheckpoints]
          rw [chunkedIngest]
          rw [hpc]
          by_cases hpk : pause k
          · simp only [hpk, reduceIte]
            refine ⟨flushEvents out.1 out.2.1 out.2.2
              (lastPageNumber ((p :: rest0).take (chunkSize B))) true, 1, ?_, ?_, ?_⟩
            · simp [IngestResult.events]
            · rw [checkpointsOf_flushEvents, hpn]
              simp only [List.length_cons]
              rw [hexp]
              rfl
            · intro hnever
              rw [hnever k] at hpk
              cases hpk
          · simp only [hpk, reduceIte]
            rw [if_neg Bool.false_ne_true]
            have hdroplen : ((p :: rest0).drop (chunkSize B)).length ≤ m := by
              rw [List.length_drop]
              simp only [List.length_cons] at hlen ⊢
              omega
            have hmapdrop : ((p :: rest0).drop (chunkSize B)).map (fun p => p.page_number)
                = List.range' ((s0 + min (chunkSize B) (p :: rest0).length) + 1)
                    ((p :: rest0).drop (chunkSize B)).length := by
              rw [List.map_drop, hmap, range'_drop, List.length_drop]
              rcases le_or_lt (p :: rest0).length (chunkSize B) with hle | hlt
              · have h0 : (p :: rest0).length - chunkSize B = 0 := by omega
                rw [h0]
                rfl
              · have hm : min (chunkSize B) (p :: rest0).length = chunkSize B :=
                  Nat.min_eq_left (Nat.le_of_lt hlt)
                rw [hm]
                have h1 : s0 + 1 + chunkSize B = s0 + chunkSize B + 1 := by omega
                rw [h1]
            rcases ih _ hdroplen (s0 + min (chunkSize B) (p :: rest0).length) (k+1)
              (applyFlush jid st out.1 out.2.1 out.2.2
                (lastPageNumber ((p :: rest0).take (chunkSize B))))
              (tr ++ flushEvents out.1 out.2.1 out.2.2
                (lastPageNumber ((p :: rest0).take (chunkSize B))) false)
              hmapdrop with ⟨ext2, jj2, hev2, hcp2, hfull2⟩
            refine ⟨flushEvents out.1 out.2.1 out.2.2
              (lastPageNumber ((p :: rest0).take (chunkSize B))) false ++ ext2,
              jj2 + 1, ?_, ?_, ?_⟩
            · rw [hev2]
              rw [List.append_assoc]
            · rw [checkpointsOf_append, checkpointsOf_flushEvents, hpn, hcp2]
              simp only [List.length_cons, List.length_drop, List.singleton_append]
              have harith : rest0.length + 1 - chunkSize B
                  = (rest0.length + 1) - min (chunkSize B) (rest0.length + 1) := by
                omega
              rw [harith, hexp, List.take_succ_cons]
            · intro hnever
              rw [checkpointsOf_append, checkpointsOf_flushEvents, hpn,
                hfull2 hnever]
              simp only [List.length_cons, List.length_drop, List.singleton_append]
              have harith : rest0.length + 1 - chunkSize B
                  = (rest0.length + 1) - min (chunkSize B) (rest0.length + 1) := by
                omega
              rw [harith, hexp]

/-- The job row's `current_page` after a chunked run is the last checkpoint
written, or its previous value when no flush happened. -/
theorem chunkedIngest_job_ckpt (env : Env) (B : Nat) (pause : Nat → Bool)
    (jid bid : String) (pb : ParsedBook) (smap : Store String)
    (henv : ∀ b a d, (env.write_asset_image b a d).isOk = true) :
    ∀ (n : Nat) (todo : List ParsedPage), todo.length ≤ n →
      ∀ (k : Nat) (st : RepoState) (tr : List Event) (j0 : ParseJobRecord),
      storeGet st.jobs jid = some j0 →
      ∃ ext j1,
        (chunkedIngest env B pause jid bid pb smap todo k st tr).events = tr ++ ext
        ∧ storeGet (chunkedIngest env B pause jid bid pb smap todo k st
            tr).state.jobs jid = some j1
        ∧ j1.current_page = ((checkpointsOf ext).getLast?).getD j0.current_page := by
  intro n
  induction n with
  | zero =>
      intro todo hlen k st tr j0 hj
      have htodo : todo = [] := List.length_eq_zero.1 (Nat.le_zero.1 hlen)
      subst htodo
      rw [chunkedIngest]
      exact ⟨[], j0, by simp [IngestResult.events], hj, rfl⟩
  | succ m ih =>
      intro todo hlen k st tr j0 hj
      cases todo with
      | nil =>
          rw [chunkedIngest]
          exact ⟨[], j0, by simp [IngestResult.events], hj, rfl⟩
      | cons p rest0 =>
          rcases processChunk_ok_of_henv henv bid pb smap
            ((p :: rest0).take (chunkSize B)) with ⟨out, hpc⟩
          rw [chunkedIngest]
          rw [hpc]
          have hj1 : storeGet (applyFlush jid st out.1 out.2.1 out.2.2
              (lastPageNumber ((p :: rest0).take (chunkSize B)))).jobs jid
              = some (applyJobUpdate j0 none none
                (some (lastPageNumber ((p :: rest0).take (chunkSize B)))) none none) := by
            unfold applyFlush
            apply storeGet_jobs_update_jsp_self
            exact hj
          have hcp1 : (applyJobUpdate j0 none none
              (some (lastPageNumber ((p :: rest0).take (chunkSize B)))) none
              none).current_page
              = lastPageNumber ((p :: rest0).take (chunkSize B)) := rfl
          by_cases hpk : pause k
          · simp only [hpk, reduceIte]
            refine ⟨flushEvents out.1 out.2.1 out.2.2
              (lastPageNumber ((p :: rest0).take (chunkSize B))) true, _, ?_, hj1, ?_⟩
            · simp [IngestResult.events]
            · rw [hcp1, checkpointsOf_flushEvents]
              rfl
          · simp only [hpk, reduceIte]
            rw [if_neg Bool.false_ne_true]
            have hdroplen : ((p :: rest0).drop (chunkSize B)).length ≤ m := by
              rw [List.length_drop]
              have hcs1 : 1 ≤ chunkSize B := Nat.le_max_right _ _
              simp only [List.length_cons] at hlen ⊢
              omega
            rcases ih _ hdroplen (k+1)
              (applyFlush jid st out.1 out.2.1 out.2.2
                (lastPageNumber ((p :: rest0).take (chunkSize B))))
              (tr ++ flushEvents out.1 out.2.1 out.2.2
                (lastPageNumber ((p :: rest0).take (chunkSize B))) false)
              _ hj1 with ⟨ext2, j1, hev2, hjf, hcpf⟩
            refine ⟨flushEvents out.1 out.2.1 out.2.2
              (lastPageNumber ((p :: rest0).take (chunkSize B))) false ++ ext2,
              j1, ?_, hjf, ?_⟩
            · rw [hev2]
              rw [List.append_assoc]
            · rw [hcpf, hcp1, checkpointsOf_append, checkpointsOf_flushEvents]
              rw [List.singleton_append, getLast?_cons_getD]

/-- Closed form of the expected checkpoint schedule: `pb.pages.length / B`
full-batch checkpoints spaced exactly `B` apart, plus one final
partial-batch checkpoint at the last page when `B` does not divide the
page count. -/
theorem expectedCheckpoints_closed (B : Nat) (hB : 1 ≤ B) :
    ∀ (n m : Nat), m ≤ n → ∀ s0 : Nat,
      expectedCheckpoints B s0 m
        = List.range' (s0 + B) (m / B) B
          ++ (if m % B = 0 then [] else [s0 + m]) := by
  have hcs : chunkSize B = B := by unfold chunkSize; omega
  intro n
  induction n with
  | zero =>
      intro m hm s0
      have h0 : m = 0 := Nat.le_zero.1 hm
      subst h0
      rw [expectedCheckpoints]
      simp
  | succ nn ih =>
      intro m hm s0
      cases m with
      | zero =>
          rw [expectedCheckpoints]
          simp
      | succ mm =>
          simp only [expectedCheckpoints, hcs]
          rcases le_or_lt B (mm + 1) with hge | hlt
          · have hmin : min B (mm + 1) = B := Nat.min_eq_left hge
            rw [hmin]
            have hdiv : (mm + 1) / B = (mm + 1 - B) / B + 1 :=
              Nat.div_eq_sub_div (by omega) hge
            have hmod : (mm + 1) % B = (mm + 1 - B) % B := Nat.mod_eq_sub_mod hge
            rw [ih (mm + 1 - B) (by omega) (s0 + B), hdiv, hmod,
              List.range'_succ, List.cons_append]
            have harr : s0 + B + (mm + 1 - B) = s0 + (mm + 1) := by omega
            rw [harr]
          · have hmin : min B (mm + 1) = mm + 1 := Nat.min_eq_right (Nat.le_of_lt hlt)
            rw [hmin]
            have h0 : mm + 1 - (mm + 1) = 0 := by omega
            rw [h0, expectedCheckpoints]
            have hdiv : (mm + 1) / B = 0 := Nat.div_eq_of_lt hlt
            have hmod : (mm + 1) % B = mm + 1 := Nat.mod_eq_of_lt hlt
            rw [hdiv, hmod]
            have hne0 : ¬(mm + 1 = 0) := by omega
            rw [if_neg hne0]
            rfl

/-- C3: over pages numbered consecutively `c+1 … c+N` with batch size
`B ≥ 1`, ingestion emits — after the single optional up-front sections
upsert — a trace of whole flush groups, each upserting pages, then blocks,
then assets, then writing the checkpoint, then polling the pause flag (so
pause is never honored mid-batch); the checkpoint values written are a
whole-flush prefix of the schedule `c+B, c+2B, …` plus a final
partial-batch checkpoint `c+N` when `B` does not divide `N` — the full
schedule when pause is never requested — and the job row ends with
`current_page` equal to the last checkpoint flushed (its previous value
when nothing was flushed). -/
theorem ingest_batch_flush_checkpoint_pause
    (env : Env) (B : Nat) (pause : Nat → Bool) (st : RepoState)
    (job_id book_id : String) (pb : ParsedBook) (c : Nat) (j0 : ParseJobRecord)
    (hB : 1 ≤ B)
    (henv : ∀ b a d, (env.write_asset_image b a d).isOk = true)
    (hnum : pb.pages.map (fun p => p.page_number)
      = List.range' (c + 1) pb.pages.length)
    (hj : storeGet st.jobs job_id = some j0) :
    ∃ pre ext,
      (ingest_parsed_book env B pause st job_id book_id pb c).events = pre ++ ext
      ∧ (pre = [] ∨ ∃ secs, pre = [Event.upsertSectionsEv secs])
      ∧ Grouped (fun ps bs as_ _ => GroupSpec book_id pb c ps bs as_) ext
      ∧ (∃ jj, checkpointsOf ext
          = (List.range' (c + B) (pb.pages.length / B) B
            ++ (if pb.pages.length % B = 0 then []
              else [c + pb.pages.length])).take jj)
      ∧ ((∀ i, pause i = false) →
          checkpointsOf ext
            = List.range' (c + B) (pb.pages.length / B) B
              ++ (if pb.pages.length % B = 0 then [] else [c + pb.pages.length]))
      ∧ (∃ j1, storeGet (ingest_parsed_book env B pause st job_id book_id pb
            c).state.jobs job_id = some j1
          ∧ j1.current_page
            = ((checkpointsOf ext).getLast?).getD j0.current_page) := by
  have hsorted1 : List.Pairwise (fun a b => a ≤ b)
      (pb.pages.map (fun p => p.page_number)) := by
    rw [hnum]
    exact (List.pairwise_lt_range' _ _).imp Nat.le_of_lt
  have hsorted : List.Pairwise (fun a b => a.page_number ≤ b.page_number)
      pb.pages := List.pairwise_map.1 hsorted1
  have hsort_eq : sortByKey (fun p => p.page_number) pb.pages = pb.pages :=
    sortByKey_eq_of_sorted _ _ hsorted
  have hall : ∀ p ∈ pb.pages, c < p.page_number := by
    intro p hp
    have hm : p.page_number ∈ pb.pages.map (fun q => q.page_number) :=
      List.mem_map_of_mem _ hp
    rw [hnum] at hm
    have h2 := (List.mem_range'_1.1 hm).1
    omega
  have hfilter : pb.pages.filter (fun p => decide (c < p.page_number))
      = pb.pages := by
    rw [List.filter_eq_self]
    intro a ha
    simpa using hall a ha
  have E := ingest_parsed_book_eq_chunked env B pause st job_id book_id pb c
  rw [hsort_eq, hfilter] at E
  rcases chunkedIngest_checkpoints env B pause job_id book_id pb
      (map_sections book_id (sortByKey (fun ps => ps.order_index) pb.sections)).2
      henv pb.pages.length pb.pages (le_refl _) c 0
      (if (map_sections book_id (sortByKey (fun ps => ps.order_index)
          pb.sections)).1.isEmpty then st
        else upsert_sections st (map_sections book_id
          (sortByKey (fun ps => ps.order_index) pb.sections)).1)
      (if (map_sections book_id (sortByKey (fun ps => ps.order_index)
          pb.sections)).1.isEmpty then ([] : List Event)
        else [Event.upsertSectionsEv (map_sections book_id
          (sortByKey (fun ps => ps.order_index) pb.sections)).1])
      hnum with ⟨ext, jj, hev, hcp, hfull⟩
  have hj0 : storeGet (if (map_sections book_id (sortByKey
      (fun ps => ps.order_index) pb.sections)).1.isEmpty then st
      else upsert_sections st (map_sections book_id
        (sortByKey (fun ps => ps.order_index) pb.sections)).1).jobs job_id
      = some j0 := by
    split
    · exact hj
    · exact hj
  rcases chunkedIngest_job_ckpt env B pause job_id book_id pb
      (map_sections book_id (sortByKey (fun ps => ps.order_index) pb.sections)).2
      henv pb.pages.length pb.pages (le_refl _) 0
      (if (map_sections book_id (sortByKey (fun ps => ps.order_index)
          pb.sections)).1.isEmpty then st
        else upsert_sections st (map_sections book_id
          (sortByKey (fun ps => ps.order_index) pb.sections)).1)
      (if (map_sections book_id (sortByKey (fun ps => ps.order_index)
          pb.sections)).1.isEmpty then ([] : List Event)
        else [Event.upsertSectionsEv (map_sections book_id
          (sortByKey (fun ps => ps.order_index) pb.sections)).1])
      j0 hj0 with ⟨ext2, j1, hev2, hjf, hcpf⟩
  have hee : ext = ext2 := List.append_cancel_left (hev.symm.trans hev2)
  rcases ingest_parsed_book_grouped env B pause st job_id book_id pb c
    with ⟨pre, body, hevg, hpre, hgr⟩
  have htr0 : (if (map_sections book_id (sortByKey (fun ps => ps.order_index)
      pb.sections)).1.isEmpty then ([] : List Event)
      else [Event.upsertSectionsEv (map_sections book_id
        (sortByKey (fun ps => ps.order_index) pb.sections)).1]) = pre := by
    rcases hpre with ⟨h1, h2⟩ | ⟨h1, h2⟩
    · rw [if_pos (List.isEmpty_iff.2 h2), h1]
    · have hne : ¬((map_sections book_id (sortByKey (fun ps => ps.order_index)
          pb.sections)).1.isEmpty = true) := fun hh => h2 (List.isEmpty_iff.1 hh)
      rw [if_neg hne, h1]
  have hbody : body = ext := by
    have h5 : pre ++ body = pre ++ ext := by
      rw [← hevg, E, hev, htr0]
    exact List.append_cancel_left h5
  have hclosed := expectedCheckpoints_closed B hB pb.pages.length
    pb.pages.length (le_refl _) c
  refine ⟨pre, ext, ?_, ?_, ?_, ⟨jj, ?_⟩, ?_, ⟨j1, ?_, ?_⟩⟩
  · rw [E, hev, htr0]
  · rcases hpre with ⟨h1, _⟩ | ⟨h1, _⟩
    · exact Or.inl h1
    · exact Or.inr ⟨_, h1⟩
  · rw [← hbody]
    exact hgr
  · rw [hcp, hclosed]
  · intro hnever
    rw [hfull hnever, hclosed]
  · rw [E]
    exact hjf
  · rw [hee]
    exact hcpf

/-- Concrete instantiation of the batch-flush/checkpoint/pause theorem on
the three-page fixture with batch size 2 and no pause requests. -/
theorem ingest_batch_flush_witness :
    ∃ pre ext,
      (ingest_parsed_book envFix 2 (fun _ => false) stFix "job-1" "book-1"
        pbFix 0).events = pre ++ ext
      ∧ (pre = [] ∨ ∃ secs, pre = [Event.upsertSectionsEv secs])
      ∧ Grouped (fun ps bs as_ _ => GroupSpec "book-1" pbFix 0 ps bs as_) ext
      ∧ (∃ jj, checkpointsOf ext
          = (List.range' (0 + 2) (pbFix.pages.length / 2) 2
            ++ (if pbFix.pages.length % 2 = 0 then []
              else [0 + pbFix.pages.length])).take jj)
      ∧ ((∀ i, (fun _ => false : Nat → Bool) i = false) →
          checkpointsOf ext
            = List.range' (0 + 2) (pbFix.pages.length / 2) 2
              ++ (if pbFix.pages.length % 2 = 0 then []
                else [0 + pbFix.pages.length]))
      ∧ (∃ j1, storeGet (ingest_parsed_book envFix 2 (fun _ => false) stFix
            "job-1" "book-1" pbFix 0).state.jobs "job-1" = some j1
          ∧ j1.current_page
            = ((checkpointsOf ext).getLast?).getD jobFix.current_page) :=
  ingest_batch_flush_checkpoint_pause envFix 2 (fun _ => false) stFix
    "job-1" "book-1" pbFix 0 jobFix (by decide) (fun _ _ _ => rfl)
    (by decide) (by decide)

theorem storeSet_present {α : Type} (k : String) (v : α) :
    ∀ s : Store α, storeGet s k = some v → storeSet s k v = s := by
  intro s
  induction s with
  | nil => intro h; simp [storeGet] at h
  | cons kv rest ih =>
      intro h
      by_cases hq : kv.1 = k
      · simp only [storeGet, if_pos hq] at h
        injection h with h2
        simp only [storeSet, if_pos hq]
        rw [← hq, ← h2, Prod.mk.eta]
      · simp only [storeGet, if_neg hq] at h
        simp only [storeSet, if_neg hq]
        rw [ih h]

theorem storeGet_upsertAll_not_mem {α : Type} (idOf : α → String) :
    ∀ (l : List α) (s : Store α) (k : String), k ∉ l.map idOf →
      storeGet (upsertAll idOf s l) k = storeGet s k := by
  intro l
  induction l with
  | nil => intro s k _; rfl
  | cons r rest ih =>
      intro s k hk
      simp only [List.map_cons, List.mem_cons] at hk
      have hk1 : k ≠ idOf r := fun hh => hk (Or.inl hh)
      have hk2 : k ∉ rest.map idOf := fun hh => hk (Or.inr hh)
      show storeGet (upsertAll idOf (storeSet s (idOf r) r) rest) k = storeGet s k
      rw [ih _ _ hk2, storeGet_storeSet_ne _ _ hk1]

/-- Re-upserting the same records (pairwise-distinct ids) into a store that
already received them is a no-op. -/
theorem upsertAll_idem {α : Type} (idOf : α → String) :
    ∀ (l : List α) (s : Store α), (l.map idOf).Nodup →
      upsertAll idOf (upsertAll idOf s l) l = upsertAll idOf s l := by
  intro l
  induction l with
  | nil => intro s _; rfl
  | cons r rest ih =>
      intro s hnd
      simp only [List.map_cons, List.nodup_cons] at hnd
      show upsertAll idOf
          (storeSet (upsertAll idOf (storeSet s (idOf r) r) rest) (idOf r) r) rest
        = upsertAll idOf (storeSet s (idOf r) r) rest
      have hget : storeGet (upsertAll idOf (storeSet s (idOf r) r) rest) (idOf r)
          = some r := by
        rw [storeGet_upsertAll_not_mem _ _ _ _ hnd.1, storeGet_storeSet_self]
      rw [storeSet_present _ _ _ hget]
      exact ih _ hnd.2

theorem sectionIdOf_inj {book_id x y : String}
    (h : sectionIdOf book_id x = sectionIdOf book_id y) : x = y := by
  unfold sectionIdOf at h
  rw [String.append_assoc, String.append_assoc] at h
  exact string_append_cancel_left (string_append_cancel_left h)

theorem map_sections_go_ids (book_id : String) :
    ∀ (l : List ParsedSection) (m : Store String),
      (map_sections_go book_id l m).1.map (fun r => r.id)
        = l.map (fun ps => sectionIdOf book_id ps.id) := by
  intro l
  induction l with
  | nil => intro m; rfl
  | cons ps rest ih =>
      intro m
      simp only [map_sections_go, List.map_cons]
      rw [ih]

theorem sections_applyFlush (jid : String) (st : RepoState)
    (prs : List PageRecord) (brs : List BlockRecord) (ars : List AssetRecord)
    (pn : Nat) : (applyFlush jid st prs brs ars pn).sections = st.sections := by
  unfold applyFlush update_job_state_phase
  split <;> rfl

/-- Ingestion flushes never touch the sections store. -/
theorem chunkedIngest_sections (env : Env) (B : Nat) (pause : Nat → Bool)
    (jid bid : String) (pb : ParsedBook) (smap : Store String) :
    ∀ (n : Nat) (todo : List ParsedPage), todo.length ≤ n →
      ∀ (k : Nat) (st : RepoState) (tr : List Event),
        (chunkedIngest env B pause jid bid pb smap todo k st tr).state.sections
          = st.sections := by
  intro n
  induction n with
  | zero =>
      intro todo hlen k st tr
      have htodo : todo = [] := List.length_eq_zero.1 (Nat.le_zero.1 hlen)
      subst htodo
      rw [chunkedIngest]
      rfl
  | succ m ih =>
      intro todo hlen k st tr
      cases todo with
      | nil =>
          rw [chunkedIngest]
          rfl
      | cons p rest0 =>
          rw [chunkedIngest]
          cases hpc : processChunk env bid pb smap
              ((p :: rest0).take (chunkSize B)) with
          | error e => rfl
          | ok out =>
              cases hpk : pause k with
              | true =>
                  simp only [hpk, reduceIte]
                  exact sections_applyFlush _ _ _ _ _ _
              | false =>
                  simp only [hpk, reduceIte]
                  rw [if_neg Bool.false_ne_true]
                  have hdl : ((p :: rest0).drop (chunkSize B)).length ≤ m := by
                    rw [List.length_drop]
                    have hcs1 : 1 ≤ chunkSize B := Nat.le_max_right _ _
                    simp only [List.length_cons] at hlen ⊢
                    omega
                  rw [ih _ hdl, sections_applyFlush]

/-- A never-pausing chunked run's final state does not depend on the pause
counter or the accumulated trace. -/
theorem chunkedIngest_noPause_state (env : Env) (B : Nat) (jid bid : String)
    (pb : ParsedBook) (smap : Store String) (pause1 pause2 : Nat → Bool)
    (hp1 : ∀ i, pause1 i = false) (hp2 : ∀ i, pause2 i = false) :
    ∀ (n : Nat) (todo : List ParsedPage), todo.length ≤ n →
      ∀ (k k' : Nat) (st : RepoState) (tr tr' : List Event),
        (chunkedIngest env B pause1 jid bid pb smap todo k st tr).state
          = (chunkedIngest env B pause2 jid bid pb smap todo k' st tr').state := by
  intro n
  induction n with
  | zero =>
      intro todo hlen k k' st tr tr'
      have htodo : todo = [] := List.length_eq_zero.1 (Nat.le_zero.1 hlen)
      subst htodo
      rw [chunkedIngest, chunkedIngest]
      rfl
  | succ m ih =>
      intro todo hlen k k' st tr tr'
      cases todo with
      | nil =>
          rw [chunkedIngest, chunkedIngest]
          rfl
      | cons p rest0 =>
          rw [chunkedIngest, chunkedIngest]
          cases hpc : processChunk env bid pb smap
              ((p :: rest0).take (chunkSize B)) with
          | error e => rfl
          | ok out =>
              simp only [hp1 k, hp2 k', reduceIte]
              rw [if_neg Bool.false_ne_true, if_neg Bool.false_ne_true]
              have hdl : ((p :: rest0).drop (chunkSize B)).length ≤ m := by
                rw [List.length_drop]
                have hcs1 : 1 ≤ chunkSize B := Nat.le_max_right _ _
                simp only [List.length_cons] at hlen ⊢
                omega
              exact ih _ hdl _ _ _ _ _

/-- Splitting a chunked run at the point where a pause stopped it: the run
processed some prefix of `m` pages, its last written checkpoint is `s0 + m`,
and continuing over the remaining pages with a never-pausing run reaches
exactly the state of a single never-pausing run over all pages. -/
theorem chunkedIngest_split (env : Env) (B : Nat) (jid bid : String)
    (pb : ParsedBook) (smap : Store String)
    (pause1 pause2 : Nat → Bool) (hp2 : ∀ i, pause2 i = false)
    (henv : ∀ b a d, (env.write_asset_image b a d).isOk = true) :
    ∀ (n : Nat) (todo : List ParsedPage), todo.length ≤ n →
      ∀ (s0 k : Nat) (st : RepoState) (tr : List Event),
      todo.map (fun p => p.page_number) = List.range' (s0+1) todo.length →
      ∃ m ext,
        m ≤ todo.length
        ∧ (chunkedIngest env B pause1 jid bid pb smap todo k st tr).events
            = tr ++ ext
        ∧ ((checkpointsOf ext).getLast?).getD s0 = s0 + m
        ∧ ∀ (k2 : Nat) (tr2 : List Event),
            (chunkedIngest env B pause2 jid bid pb smap (todo.drop m) k2
              (chunkedIngest env B pause1 jid bid pb smap todo k st tr).state
              tr2).state
            = (chunkedIngest env B pause2 jid bid pb smap todo k2 st tr2).state := by
  intro n
  induction n with
  | zero =>
      intro todo hlen s0 k st tr hmap
      have htodo : todo = [] := List.length_eq_zero.1 (Nat.le_zero.1 hlen)
      subst htodo
      have h1 : chunkedIngest env B pause1 jid bid pb smap [] k st tr
          = IngestResult.done st tr := by rw [chunkedIngest]
      refine ⟨0, [], Nat.le_refl _, ?_, rfl, ?_⟩
      · rw [h1]
        simp [IngestResult.events]
      · intro k2 tr2
        rw [h1]
        rfl
  | succ m ih =>
      intro todo hlen s0 k st tr hmap
      cases todo with
      | nil =>
          have h1 : chunkedIngest env B pause1 jid bid pb smap [] k st tr
              = IngestResult.done st tr := by rw [chunkedIngest]
          refine ⟨0, [], Nat.le_refl _, ?_, rfl, ?_⟩
          · rw [h1]
            simp [IngestResult.events]
          · intro k2 tr2
            rw [h1]
            rfl
      | cons p rest0 =>
          have hcs1 : 1 ≤ chunkSize B := Nat.le_max_right _ _
          rcases processChunk_ok_of_henv henv bid pb smap
            ((p :: rest0).take (chunkSize B)) with ⟨out, hpc⟩
          have hpn : lastPageNumber ((p :: rest0).take (chunkSize B))
              = s0 + min (chunkSize B) (p :: rest0).length :=
            lastPageNumber_take_range B (p :: rest0) s0 hmap (by intro hc; cases hc)
          cases hpk : pause1 k with
          | true =>
              have hrun1 : chunkedIngest env B pause1 jid bid pb smap
                  (p :: rest0) k st tr
                  = IngestResult.done
                    (applyFlush jid st out.1 out.2.1 out.2.2
                      (lastPageNumber ((p :: rest0).take (chunkSize B))))
                    (tr ++ flushEvents out.1 out.2.1 out.2.2
                      (lastPageNumber ((p :: rest0).take (chunkSize B))) true) := by
                rw [chunkedIngest, hpc]
                simp only [hpk, reduceIte]
              refine ⟨min (chunkSize B) (p :: rest0).length,
                flushEvents out.1 out.2.1 out.2.2
                  (lastPageNumber ((p :: rest0).take (chunkSize B))) true,
                Nat.min_le_right _ _, ?_, ?_, ?_⟩
              · rw [hrun1]
                simp [IngestResult.events]
              · rw [checkpointsOf_flushEvents, hpn]
                rfl
              · intro k2 tr2
                rw [hrun1]
                simp only [IngestResult.state]
                have hrun2 : chunkedIngest env B pause2 jid bid pb smap
                    (p :: rest0) k2 st tr2
                    = chunkedIngest env B pause2 jid bid pb smap
                      ((p :: rest0).drop (chunkSize B)) (k2+1)
                      (applyFlush jid st out.1 out.2.1 out.2.2
                        (lastPageNumber ((p :: rest0).take (chunkSize B))))
                      (tr2 ++ flushEvents out.1 out.2.1 out.2.2
                        (lastPageNumber ((p :: rest0).take (chunkSize B))) false) := by
                  rw [chunkedIngest, hpc]
                  simp only [hp2 k2, reduceIte]
                  rw [if_neg Bool.false_ne_true]
                rw [hrun2]
                rcases le_or_lt (p :: rest0).length (chunkSize B) with hle | hlt
                · have hmin : min (chunkSize B) (p :: rest0).length
                      = (p :: rest0).length := Nat.min_eq_right hle
                  have h1 : (p :: rest0).drop
                      (min (chunkSize B) (p :: rest0).length) = [] := by
                    rw [hmin]
                    exact List.drop_length _
                  have h2 : (p :: rest0).drop (chunkSize B) = [] :=
                    List.drop_eq_nil_of_le hle
                  rw [h1, h2, chunkedIngest, chunkedIngest]
                · have hmin : min (chunkSize B) (p :: rest0).length
                      = chunkSize B := Nat.min_eq_left (Nat.le_of_lt hlt)
                  rw [hmin]
                  exact chunkedIngest_noPause_state env B jid bid pb smap
                    pause2 pause2 hp2 hp2 _ _ (le_refl _) _ _ _ _ _
          | false =>
              have hrun1 : chunkedIngest env B pause1 jid bid pb smap
                  (p :: rest0) k st tr
                  = chunkedIngest env B pause1 jid bid pb smap
                    ((p :: rest0).drop (chunkSize B)) (k+1)
                    (applyFlush jid st out.1 out.2.1 out.2.2
                      (lastPageNumber ((p :: rest0).take (chunkSize B))))
                    (tr ++ flushEvents out.1 out.2.1 out.2.2
                      (lastPageNumber ((p :: rest0).take (chunkSize B))) false) := by
                rw [chunkedIngest, hpc]
                simp only [hpk, reduceIte]
                rw [if_neg Bool.false_ne_true]
              have hdl : ((p :: rest0).drop (chunkSize B)).length ≤ m := by
                rw [List.length_drop]
                simp only [List.length_cons] at hlen ⊢
                omega
              have hmapdrop : ((p :: rest0).drop (chunkSize B)).map
                  (fun p => p.page_number)
                  = List.range' ((s0 + min (chunkSize B) (p :: rest0).length) + 1)
                      ((p :: rest0).drop (chunkSize B)).length := by
                rw [List.map_drop, hmap, range'_drop, List.length_drop]
                rcases le_or_lt (p :: rest0).length (chunkSize B) with hle | hlt
                · have h0 : (p :: rest0).length - chunkSize B = 0 := by omega
                  rw [h0]
                  rfl
                · have hm2 : min (chunkSize B) (p :: rest0).length = chunkSize B :=
                    Nat.min_eq_left (Nat.le_of_lt hlt)
                  rw [hm2]
                  have h1 : s0 + 1 + chunkSize B = s0 + chunkSize B + 1 := by omega
                  rw [h1]
              rcases ih _ hdl (s0 + min (chunkSize B) (p :: rest0).length) (k+1)
                (applyFlush jid st out.1 out.2.1 out.2.2
                  (lastPageNumber ((p :: rest0).take (chunkSize B))))
                (tr ++ flushEvents out.1 out.2.1 out.2.2
                  (lastPageNumber ((p :: rest0).take (chunkSize B))) false)
                hmapdrop with ⟨m2, ext2, hm2, hev2, hck2, hst2⟩
              refine ⟨min (chunkSize B) (p :: rest0).length + m2,
                flushEvents out.1 out.2.1 out.2.2
                  (lastPageNumber ((p :: rest0).take (chunkSize B))) false ++ ext2,
                ?_, ?_, ?_, ?_⟩
              · rw [List.length_drop] at hm2
                omega
              · rw [hrun1, hev2]
                rw [List.append_assoc]
              · rw [checkpointsOf_append, checkpointsOf_flushEvents, hpn,
                  List.singleton_append, getLast?_cons_getD, hck2]
                omega
              · intro k2 tr2
                rw [hrun1]
                have hdd : (p :: rest0).drop
                    (min (chunkSize B) (p :: rest0).length + m2)
                    = ((p :: rest0).drop (chunkSize B)).drop m2 := by
                  rcases le_or_lt (chunkSize B) (p :: rest0).length with hle2 | hlt2
                  · have hmin : min (chunkSize B) (p :: rest0).length
                        = chunkSize B := Nat.min_eq_left hle2
                    rw [hmin, List.drop_drop, Nat.add_comm (chunkSize B) m2]
                  · have h0 : m2 = 0 := by
                      rw [List.length_drop] at hm2
                      omega
                    have he1 : (p :: rest0).drop
                        (min (chunkSize B) (p :: rest0).length + m2) = [] := by
                      apply List.drop_eq_nil_of_le
                      omega
                    have he2 : (p :: rest0).drop (chunkSize B) = [] :=
                      List.drop_eq_nil_of_le (Nat.le_of_lt hlt2)
                    rw [he1, he2, h0]
                    rfl
                rw [hdd, hst2 k2 tr2]
                have hrun2 : chunkedIngest env B pause2 jid bid pb smap
                    (p :: rest0) k2 st tr2
                    = chunkedIngest env B pause2 jid bid pb smap
                      ((p :: rest0).drop (chunkSize B)) (k2+1)
                      (applyFlush jid st out.1 out.2.1 out.2.2
                        (lastPageNumber ((p :: rest0).take (chunkSize B))))
                      (tr2 ++ flushEvents out.1 out.2.1 out.2.2
                        (lastPageNumber ((p :: rest0).take (chunkSize B))) false) := by
                  rw [chunkedIngest, hpc]
                  simp only [hp2 k2, reduceIte]
                  rw [if_neg Bool.false_ne_true]
                rw [hrun2]
                exact chunkedIngest_noPause_state env B jid bid pb smap
                  pause2 pause2 hp2 hp2 _ _ (le_refl _) _ _ _ _ _

/-- Over consecutively numbered pages, the worker's resume filter
(`page_number > checkpoint`) keeps exactly the pages after the first `m`. -/
theorem filter_gt_range' :
    ∀ (l : List ParsedPage) (s0 m : Nat),
      l.map (fun p => p.page_number) = List.range' (s0+1) l.length →
      l.filter (fun p => decide (s0 + m < p.page_number)) = l.drop m := by
  intro l
  induction l with
  | nil => intro s0 m _; simp
  | cons p rest ih =>
      intro s0 m hmap
      simp only [List.map_cons, List.length_cons, List.range'_succ] at hmap
      injection hmap with hp1 hrest
      cases m with
      | zero =>
          rw [List.filter_eq_self.2]
          · rfl
          · intro a ha
            rcases List.mem_cons.1 ha with h | h
            · subst h
              simp only [decide_eq_true_eq]
              omega
            · have hm : a.page_number ∈ rest.map (fun q => q.page_number) :=
                List.mem_map_of_mem _ h
              rw [hrest] at hm
              have h2 := (List.mem_range'_1.1 hm).1
              simp only [decide_eq_true_eq]
              omega
      | succ mm =>
          have hfalse : decide (s0 + (mm+1) < p.page_number) = false := by
            rw [hp1]
            simp only [decide_eq_false_iff_not]
            omega
          rw [List.filter_cons, hfalse]
          simp only [Bool.false_eq_true, if_false]
          have harith : s0 + (mm + 1) = (s0 + 1) + mm := by omega
          rw [harith]
          have hrest2 : rest.map (fun q => q.page_number)
              = List.range' ((s0+1)+1) rest.length := by
            rw [hrest]
          rw [ih (s0+1) mm hrest2]
          rfl

/-- C2: over consecutively numbered pages `1 … N` (with pairwise-distinct
source section ids), running ingestion once from checkpoint 0 under an
arbitrary pause oracle and then again — uninterrupted — from the checkpoint
the first run left behind yields exactly the same final page, section,
block, and asset stores as a single uninterrupted run from checkpoint 0;
moreover every page batch upserted by the second run contains only pages
whose number exceeds that checkpoint (all lower-numbered pages are
skipped). -/
theorem ingest_resume_from_checkpoint
    (env : Env) (B : Nat) (pause1 pause2 : Nat → Bool) (st : RepoState)
    (job_id book_id : String) (pb : ParsedBook)
    (hp2 : ∀ i, pause2 i = false)
    (henv : ∀ b a d, (env.write_asset_image b a d).isOk = true)
    (hnum : pb.pages.map (fun p => p.page_number)
      = List.range' 1 pb.pages.length)
    (hsec : (pb.sections.map (fun s => s.id)).Nodup) :
    contentOf (ingest_parsed_book env B pause2
        (ingest_parsed_book env B pause1 st job_id book_id pb 0).state
        job_id book_id pb
        (lastCheckpointD
          (ingest_parsed_book env B pause1 st job_id book_id pb 0).events
          0)).state
      = contentOf (ingest_parsed_book env B pause2 st job_id book_id pb 0).state
    ∧ ∃ pre2 ext2,
        (ingest_parsed_book env B pause2
          (ingest_parsed_book env B pause1 st job_id book_id pb 0).state
          job_id book_id pb
          (lastCheckpointD
            (ingest_parsed_book env B pause1 st job_id book_id pb 0).events
            0)).events = pre2 ++ ext2
        ∧ ∀ ps ∈ pageBatchesOf ext2, ∀ p ∈ ps,
            lastCheckpointD
              (ingest_parsed_book env B pause1 st job_id book_id pb 0).events 0
              < p.page_number := by
  have hsorted1 : List.Pairwise (fun a b => a ≤ b)
      (pb.pages.map (fun p => p.page_number)) := by
    rw [hnum]
    exact (List.pairwise_lt_range' _ _).imp Nat.le_of_lt
  have hsorted : List.Pairwise (fun a b => a.page_number ≤ b.page_number)
      pb.pages := List.pairwise_map.1 hsorted1
  have hsort_eq : sortByKey (fun p => p.page_number) pb.pages = pb.pages :=
    sortByKey_eq_of_sorted _ _ hsorted
  have hall : ∀ p ∈ pb.pages, 0 < p.page_number := by
    intro p hp
    have hm2 : p.page_number ∈ pb.pages.map (fun q => q.page_number) :=
      List.mem_map_of_mem _ hp
    rw [hnum] at hm2
    have h2 := (List.mem_range'_1.1 hm2).1
    omega
  have hfilter0 : pb.pages.filter (fun p => decide (0 < p.page_number))
      = pb.pages := by
    rw [List.filter_eq_self]
    intro a ha
    simpa using hall a ha
  have hnum' : pb.pages.map (fun p => p.page_number)
      = List.range' (0+1) pb.pages.length := hnum
  have E1 := ingest_parsed_book_eq_chunked env B pause1 st job_id book_id pb 0
  rw [hsort_eq, hfilter0] at E1
  rcases chunkedIngest_split env B job_id book_id pb
      (map_sections book_id (sortByKey (fun ps => ps.order_index) pb.sections)).2
      pause1 pause2 hp2 henv pb.pages.length pb.pages (le_refl _) 0 0
      (if (map_sections book_id (sortByKey (fun ps => ps.order_index)
          pb.sections)).1.isEmpty then st
        else upsert_sections st (map_sections book_id
          (sortByKey (fun ps => ps.order_index) pb.sections)).1)
      (if (map_sections book_id (sortByKey (fun ps => ps.order_index)
          pb.sections)).1.isEmpty then ([] : List Event)
        else [Event.upsertSectionsEv (map_sections book_id
          (sortByKey (fun ps => ps.order_index) pb.sections)).1])
      hnum' with ⟨m, ext, hm, hev1, hck, hstate⟩
  have htr0ck : checkpointsOf (if (map_sections book_id (sortByKey
      (fun ps => ps.order_index) pb.sections)).1.isEmpty then ([] : List Event)
      else [Event.upsertSectionsEv (map_sections book_id
        (sortByKey (fun ps => ps.order_index) pb.sections)).1]) = [] := by
    split <;> rfl
  have hc1 : lastCheckpointD
      (ingest_parsed_book env B pause1 st job_id book_id pb 0).events 0
      = 0 + m := by
    unfold lastCheckpointD
    rw [E1, hev1, checkpointsOf_append, htr0ck, List.nil_append]
    exact hck
  have hsecnodup : ((map_sections book_id (sortByKey (fun ps => ps.order_index)
      pb.sections)).1.map (fun r => r.id)).Nodup := by
    have hids : (map_sections book_id (sortByKey (fun ps => ps.order_index)
        pb.sections)).1.map (fun r => r.id)
        = (sortByKey (fun ps => ps.order_index) pb.sections).map
            (fun ps => sectionIdOf book_id ps.id) :=
      map_sections_go_ids book_id _ []
    rw [hids]
    have hperm := sortByKey_perm (fun ps => ps.order_index) pb.sections
    have hnd2 : ((sortByKey (fun ps => ps.order_index) pb.sections).map
        (fun s => s.id)).Nodup := ((hperm.map (fun s => s.id)).nodup_iff).2 hsec
    have hnd3 : (sortByKey (fun ps => ps.order_index) pb.sections).Nodup :=
      hnd2.of_map
    refine List.Nodup.map_on ?_ hnd3
    intro x hx y hy hxy
    exact List.inj_on_of_nodup_map hnd2 hx hy (sectionIdOf_inj hxy)
  have hS1sec : (ingest_parsed_book env B pause1 st job_id book_id pb
      0).state.sections
      = (if (map_sections book_id (sortByKey (fun ps => ps.order_index)
          pb.sections)).1.isEmpty then st
        else upsert_sections st (map_sections book_id
          (sortByKey (fun ps => ps.order_index) pb.sections)).1).sections := by
    rw [E1]
    exact chunkedIngest_sections env B pause1 job_id book_id pb _
      pb.pages.length pb.pages (le_refl _) 0 _ _
  have hsecfix : (if (map_sections book_id (sortByKey (fun ps => ps.order_index)
      pb.sections)).1.isEmpty
      then (ingest_parsed_book env B pause1 st job_id book_id pb 0).state
      else upsert_sections
        (ingest_parsed_book env B pause1 st job_id book_id pb 0).state
        (map_sections book_id (sortByKey (fun ps => ps.order_index)
          pb.sections)).1)
      = (ingest_parsed_book env B pause1 st job_id book_id pb 0).state := by
    cases hem : (map_sections book_id (sortByKey (fun ps => ps.order_index)
        pb.sections)).1.isEmpty with
    | true => rw [if_pos rfl]
    | false =>
        have hne : ¬((map_sections book_id (sortByKey (fun ps => ps.order_index)
            pb.sections)).1.isEmpty = true) := by
          rw [hem]
          exact Bool.false_ne_true
        rw [if_neg Bool.false_ne_true]
        have hS1sec2 : (ingest_parsed_book env B pause1 st job_id book_id pb
            0).state.sections
            = upsertAll (fun r => r.id) st.sections (map_sections book_id
                (sortByKey (fun ps => ps.order_index) pb.sections)).1 := by
          rw [hS1sec, if_neg hne]
          rfl
        unfold upsert_sections
        rw [hS1sec2, upsertAll_idem _ _ _ hsecnodup, ← hS1sec2]
  have E3 := ingest_parsed_book_eq_chunked env B pause2 st job_id book_id pb 0
  rw [hsort_eq, hfilter0] at E3
  constructor
  · have E2 := ingest_parsed_book_eq_chunked env B pause2
      (ingest_parsed_book env B pause1 st job_id book_id pb 0).state job_id
      book_id pb (lastCheckpointD
        (ingest_parsed_book env B pause1 st job_id book_id pb 0).events 0)
    rw [E2, hsort_eq, hc1, filter_gt_range' pb.pages 0 m hnum', hsecfix, E3, E1]
    exact congrArg contentOf (hstate 0 _)
  · rcases ingest_parsed_book_grouped env B pause2
      (ingest_parsed_book env B pause1 st job_id book_id pb 0).state job_id
      book_id pb (lastCheckpointD
        (ingest_parsed_book env B pause1 st job_id book_id pb 0).events 0)
      with ⟨pre2, body2, hev2g, _, hgr2⟩
    refine ⟨pre2, body2, hev2g, ?_⟩
    intro ps hps p hp
    rcases grouped_pageBatches hgr2 ps hps with ⟨bs, as2, n2, hspec⟩
    exact (hspec.2.2.1 p hp).1

/-- Concrete instantiation of resumability on the three-page fixture:
batch size 2, first run pauses at the first poll (checkpoint 2), second run
resumes uninterrupted and matches the single uninterrupted run. -/
theorem ingest_resume_witness :
    contentOf (ingest_parsed_book envFix 2 (fun _ => false)
        (ingest_parsed_book envFix 2 (fun i => i == 0) stFix "job-1" "book-1"
          pbFix 0).state
        "job-1" "book-1" pbFix
        (lastCheckpointD (ingest_parsed_book envFix 2 (fun i => i == 0) stFix
          "job-1" "book-1" pbFix 0).events 0)).state
      = contentOf (ingest_parsed_book envFix 2 (fun _ => false) stFix
          "job-1" "book-1" pbFix 0).state
    ∧ ∃ pre2 ext2,
        (ingest_parsed_book envFix 2 (fun _ => false)
          (ingest_parsed_book envFix 2 (fun i => i == 0) stFix "job-1" "book-1"
            pbFix 0).state
          "job-1" "book-1" pbFix
          (lastCheckpointD (ingest_parsed_book envFix 2 (fun i => i == 0) stFix
            "job-1" "book-1" pbFix 0).events 0)).events = pre2 ++ ext2
        ∧ ∀ ps ∈ pageBatchesOf ext2, ∀ p ∈ ps,
            lastCheckpointD (ingest_parsed_book envFix 2 (fun i => i == 0) stFix
              "job-1" "book-1" pbFix 0).events 0 < p.page_number :=
  ingest_resume_from_checkpoint envFix 2 (fun i => i == 0) (fun _ => false)
    stFix "job-1" "book-1" pbFix (fun _ => rfl) (fun _ _ _ => rfl) (by decide)
    (by decide)

end ReadingAssistant
